import Mathlib

/-!
Verification of the session-scoped, content-addressed metadata store
(`Backend/app/store/session_store.py`).

The development shallowly embeds:
* the Python value universe handled by the store (`PyVal`), with
  `json.dumps` serialization, Python `str()` scalar coercion, and a
  `json.loads` model (fuel-based recursive descent over characters);
* SHA-256 over byte lists (`hashlib.sha256(...).hexdigest()`);
* the Redis keyspace the store uses (hash maps, sorted sets, per-key
  expiry deadlines) and each public `SessionStore` operation as an
  explicit state transformer.
-/

/-! ### Python values

The store accepts and returns "JSON-compatible" Python values: `None`,
booleans, ints, strings, and nested lists/dicts.  Float literals met while
parsing stored text are kept as their raw source text (`pyfloat`), so the
model never claims a parse failure where Python's `json.loads` would
succeed on a float; the store's own claims never serialize floats. -/

mutual
inductive PyVal : Type where
  | pynone : PyVal
  | pybool (b : Bool) : PyVal
  | pyint (n : Int) : PyVal
  | pystr (s : String) : PyVal
  | pyfloat (raw : String) : PyVal
  | pylist (xs : PyList) : PyVal
  | pydict (kvs : PyDict) : PyVal

inductive PyList : Type where
  | nil : PyList
  | cons (v : PyVal) (tl : PyList) : PyList

inductive PyDict : Type where
  | nil : PyDict
  | cons (k : String) (v : PyVal) (tl : PyDict) : PyDict
end

/-! ### Serialization: the `json.dumps` model

`store_image_metadata` serializes nested dict/list values with
`json.dumps(value)` (default separators `", "` / `": "`, `ensure_ascii`):
printable ASCII other than `"` and `\` passes through, the named escapes
cover the usual control characters, everything else becomes `\uXXXX`. -/

def hexDigitChar (n : Nat) : Char :=
  if n < 10 then Char.ofNat ('0'.toNat + n) else Char.ofNat ('a'.toNat + n - 10)

def jsonEscapeChar (c : Char) : List Char :=
  if c = '"' then ['\\', '"']
  else if c = '\\' then ['\\', '\\']
  else if c = '\n' then ['\\', 'n']
  else if c = '\r' then ['\\', 'r']
  else if c = '\t' then ['\\', 't']
  else if c.toNat = 8 then ['\\', 'b']
  else if c.toNat = 12 then ['\\', 'f']
  else if 0x20 ≤ c.toNat ∧ c.toNat ≤ 0x7e then [c]
  else ['\\', 'u', hexDigitChar (c.toNat / 4096 % 16), hexDigitChar (c.toNat / 256 % 16),
        hexDigitChar (c.toNat / 16 % 16), hexDigitChar (c.toNat % 16)]

def jsonQuote (s : String) : List Char :=
  '"' :: (s.data.flatMap jsonEscapeChar ++ ['"'])

/-- Decimal digits of `n`, most significant first, onto `acc`
    (the rendering `str(int)` and `json.dumps(int)` share).  Structural
    on a fuel bound so it reduces inside the kernel; `decDigits` below
    instantiates the fuel sufficiently. -/
def decDigitsF : Nat → Nat → List Char → List Char
  | 0, _, acc => acc
  | fuel + 1, n, acc =>
      if n < 10 then Char.ofNat ('0'.toNat + n) :: acc
      else decDigitsF fuel (n / 10) (Char.ofNat ('0'.toNat + n % 10) :: acc)

def decDigits (n : Nat) (acc : List Char) : List Char := decDigitsF (n + 1) n acc

def intChars (i : Int) : List Char :=
  (if i < 0 then ['-'] else []) ++ decDigits i.natAbs []

mutual

def jsonRender : PyVal → List Char
  | .pynone => ['n', 'u', 'l', 'l']
  | .pybool true => ['t', 'r', 'u', 'e']
  | .pybool false => ['f', 'a', 'l', 's', 'e']
  | .pyint n => intChars n
  | .pystr s => jsonQuote s
  | .pyfloat raw => raw.data
  | .pylist .nil => ['[', ']']
  | .pylist (.cons v tl) => '[' :: (jsonRender v ++ jsonRenderListTail tl ++ [']'])
  | .pydict .nil => ['{', '}']
  | .pydict (.cons k v tl) =>
      '{' :: (jsonQuote k ++ ':' :: ' ' :: (jsonRender v ++ jsonRenderDictTail tl ++ ['}']))

def jsonRenderListTail : PyList → List Char
  | .nil => []
  | .cons v tl => ',' :: ' ' :: (jsonRender v ++ jsonRenderListTail tl)

def jsonRenderDictTail : PyDict → List Char
  | .nil => []
  | .cons k v tl =>
      ',' :: ' ' :: (jsonQuote k ++ ':' :: ' ' :: (jsonRender v ++ jsonRenderDictTail tl))

end

/-- `json.dumps(value)` as a string. -/
def jsonDumps (v : PyVal) : String := String.mk (jsonRender v)

/-! ### The scalar branch of the store's serializer

From `store_image_metadata` (`session_store.py:120-128`): dict/list values
go through `json.dumps`, `None` becomes the empty string, and every other
value becomes `str(value)`. -/

def pyStr : PyVal → String
  | .pynone => "None"
  | .pybool true => "True"
  | .pybool false => "False"
  | .pyint n => String.mk (intChars n)
  | .pystr s => s
  | .pyfloat raw => raw
  | .pylist xs => jsonDumps (.pylist xs)
  | .pydict kvs => jsonDumps (.pydict kvs)

def serializeValue : PyVal → String
  | .pydict kvs => jsonDumps (.pydict kvs)
  | .pylist xs => jsonDumps (.pylist xs)
  | .pynone => ""
  | v => pyStr v

/-- Association-list view of a `PyDict` (Python dicts preserve insertion
    order, which the association list mirrors). -/
def PyDict.entries : PyDict → List (String × PyVal)
  | .nil => []
  | .cons k v tl => (k, v) :: tl.entries

/-- The serialized field map `store_image_metadata` builds before `hset`. -/
def serializeMetadata (md : PyDict) : List (String × String) :=
  md.entries.map (fun kv => (kv.1, serializeValue kv.2))


/-! ### Deserialization: the `json.loads` model

`get_image_metadata` / `_batch_get_metadata` attempt `json.loads` on each
stored field and keep the raw string when that raises.  The model mirrors
the stdlib decoder: strict strings (unescaped control characters are
rejected), numbers per the decoder's regular expression (no leading
zeros; a fractional part or exponent makes a float, kept here as its raw
text), the `NaN` / `Infinity` / `-Infinity` extensions, and whitespace
skipped exactly where the decoder skips it. -/

def isJsonWs (c : Char) : Bool := c = ' ' || c = '\t' || c = '\n' || c = '\r'

def skipJsonWs : List Char → List Char
  | c :: cs => if isJsonWs c then skipJsonWs cs else c :: cs
  | [] => []

def isDec (c : Char) : Bool := '0' ≤ c && c ≤ '9'

def takeDec : List Char → List Char × List Char
  | c :: cs => if isDec c then let (ds, r) := takeDec cs; (c :: ds, r) else ([], c :: cs)
  | [] => ([], [])

def decValue (ds : List Char) : Nat :=
  ds.foldl (fun acc c => acc * 10 + (c.toNat - '0'.toNat)) 0

def hexNibble (c : Char) : Option Nat :=
  if '0' ≤ c ∧ c ≤ '9' then some (c.toNat - '0'.toNat)
  else if 'a' ≤ c ∧ c ≤ 'f' then some (c.toNat - 'a'.toNat + 10)
  else if 'A' ≤ c ∧ c ≤ 'F' then some (c.toNat - 'A'.toNat + 10)
  else none

def unescapeChar : Char → Option Char
  | '"' => some '"'
  | '\\' => some '\\'
  | '/' => some '/'
  | 'b' => some (Char.ofNat 8)
  | 'f' => some (Char.ofNat 12)
  | 'n' => some '\n'
  | 'r' => some '\r'
  | 't' => some '\t'
  | _ => none

def parseStringBody (acc : List Char) : List Char → Option (String × List Char)
  | c :: rest =>
      if c = '"' then some (String.mk acc.reverse, rest)
      else if c = '\\' then
        match rest with
        | 'u' :: a :: b :: c2 :: d :: rest2 =>
            (match hexNibble a, hexNibble b, hexNibble c2, hexNibble d with
             | some va, some vb, some vc, some vd =>
                 parseStringBody (Char.ofNat (((va * 16 + vb) * 16 + vc) * 16 + vd) :: acc) rest2
             | _, _, _, _ => none)
        | e :: rest2 =>
            (match unescapeChar e with
             | some ch => parseStringBody (ch :: acc) rest2
             | none => none)
        | [] => none
      else if c.toNat < 0x20 then none
      else parseStringBody (c :: acc) rest
  | [] => none

/-- The optional fraction group of the decoder's number regex: `.`
    followed by at least one digit, else nothing is consumed. -/
def fracGroup : List Char → List Char × List Char
  | c :: r =>
      if c = '.' then
        match takeDec r with
        | ([], _) => ([], c :: r)
        | (ds, r2) => ('.' :: ds, r2)
      else ([], c :: r)
  | [] => ([], [])

/-- The optional exponent group: `e`/`E`, an optional sign, and at least
    one digit, else nothing is consumed. -/
def expGroup : List Char → List Char × List Char
  | e :: r =>
      if e = 'e' ∨ e = 'E' then
        match r with
        | s :: r2 =>
            if s = '+' ∨ s = '-' then
              match takeDec r2 with
              | ([], _) => ([], e :: r)
              | (ds, r3) => (e :: s :: ds, r3)
            else
              match takeDec r with
              | ([], _) => ([], e :: r)
              | (ds, r3) => (e :: ds, r3)
        | [] => ([], e :: r)
      else ([], e :: r)
  | [] => ([], [])

/-- Both optional groups; when neither can match the number ends where
    its integer digits end. -/
def takeFracExp (cs : List Char) : List Char × List Char :=
  let (frac, cs1) := fracGroup cs
  let (ex, cs2) := expGroup cs1
  (frac ++ ex, cs2)

/-- `NUMBER_RE.match`: sign, then `0` or a nonzero digit run, then the
    optional groups; ints stay exact, anything with a fraction or
    exponent is a float kept as raw text. -/
def splitSign (cs : List Char) : Bool × List Char :=
  match cs with
  | '-' :: r => (true, r)
  | _ => (false, cs)

def parseNumBody (sgn : Bool) : List Char → Option (PyVal × List Char)
  | c :: r =>
      if c = '0' ∨ (isDec c ∧ c ≠ '0') then
        let (intDs, r2) := if c = '0' then (['0'], r) else let (ds, r3) := takeDec r; (c :: ds, r3)
        let (fe, r4) := takeFracExp r2
        if fe = [] then
          some (.pyint ((if sgn then -1 else 1) * (decValue intDs : Int)), r4)
        else
          some (.pyfloat (String.mk ((if sgn then ['-'] else []) ++ intDs ++ fe)), r4)
      else none
  | [] => none

def parseNumber (cs : List Char) : Option (PyVal × List Char) :=
  parseNumBody (splitSign cs).1 (splitSign cs).2

/-- Literal-token matcher (`null`, `true`, `false`, `NaN`, `Infinity`). -/
def stripTok : List Char → List Char → Option (List Char)
  | [], cs => some cs
  | t :: ts, c :: cs => if c = t then stripTok ts cs else none
  | _ :: _, [] => none

mutual

def parseJsonVal (fuel : Nat) (cs : List Char) : Option (PyVal × List Char) :=
  match fuel with
  | 0 => none
  | fuel + 1 =>
      match cs with
      | [] => none
      | c :: r =>
          if c = '"' then
            (match parseStringBody [] r with
             | some (s, r2) => some (.pystr s, r2)
             | none => none)
          else if c = '{' then
            (match skipJsonWs r with
             | c2 :: r2 =>
                 if c2 = '}' then some (.pydict .nil, r2)
                 else
                   (match parseJsonMembers fuel (c2 :: r2) with
                    | some (ms, r3) => some (.pydict ms, r3)
                    | none => none)
             | [] => none)
          else if c = '[' then
            (match skipJsonWs r with
             | c2 :: r2 =>
                 if c2 = ']' then some (.pylist .nil, r2)
                 else
                   (match parseJsonElems fuel (c2 :: r2) with
                    | some (es, r3) => some (.pylist es, r3)
                    | none => none)
             | [] => none)
          else if c = 'n' then
            (match stripTok ['u', 'l', 'l'] r with
             | some r2 => some (.pynone, r2)
             | none => none)
          else if c = 't' then
            (match stripTok ['r', 'u', 'e'] r with
             | some r2 => some (.pybool true, r2)
             | none => none)
          else if c = 'f' then
            (match stripTok ['a', 'l', 's', 'e'] r with
             | some r2 => some (.pybool false, r2)
             | none => none)
          else if c = 'N' then
            (match stripTok ['a', 'N'] r with
             | some r2 => some (.pyfloat "NaN", r2)
             | none => none)
          else if c = 'I' then
            (match stripTok ['n', 'f', 'i', 'n', 'i', 't', 'y'] r with
             | some r2 => some (.pyfloat "Infinity", r2)
             | none => none)
          else if c = '-' then
            (match r with
             | c2 :: r2 =>
                 if c2 = 'I' then
                   (match stripTok ['n', 'f', 'i', 'n', 'i', 't', 'y'] r2 with
                    | some r3 => some (.pyfloat "-Infinity", r3)
                    | none => none)
                 else parseNumber (c :: r)
             | [] => parseNumber (c :: r))
          else parseNumber (c :: r)

def parseJsonMembers (fuel : Nat) (cs : List Char) : Option (PyDict × List Char) :=
  match fuel with
  | 0 => none
  | fuel + 1 =>
      match cs with
      | c :: r =>
          if c = '"' then
            (match parseStringBody [] r with
             | none => none
             | some (k, r1) =>
                 match skipJsonWs r1 with
                 | c2 :: r2 =>
                     if c2 = ':' then
                       (match parseJsonVal fuel (skipJsonWs r2) with
                        | none => none
                        | some (v, r3) =>
                            match skipJsonWs r3 with
                            | c3 :: r4 =>
                                if c3 = ',' then
                                  (match parseJsonMembers fuel (skipJsonWs r4) with
                                   | some (ms, r5) => some (.cons k v ms, r5)
                                   | none => none)
                                else if c3 = '}' then some (.cons k v .nil, r4)
                                else none
                            | [] => none)
                     else none
                 | [] => none)
          else none
      | [] => none

def parseJsonElems (fuel : Nat) (cs : List Char) : Option (PyList × List Char) :=
  match fuel with
  | 0 => none
  | fuel + 1 =>
      match parseJsonVal fuel cs with
      | none => none
      | some (v, r) =>
          match skipJsonWs r with
          | c2 :: r2 =>
              if c2 = ',' then
                (match parseJsonElems fuel (skipJsonWs r2) with
                 | some (vs, r3) => some (.cons v vs, r3)
                 | none => none)
              else if c2 = ']' then some (.cons v .nil, r2)
              else none
          | [] => none

end

/-- `json.loads(s)`: a single document with surrounding whitespace. -/
def jsonLoads (s : String) : Option PyVal :=
  let cs := skipJsonWs s.data
  match parseJsonVal (cs.length + 1) cs with
  | some (v, r) => if skipJsonWs r = [] then some v else none
  | none => none

/-- The read path's per-field treatment: parse as JSON, else keep the
    raw string (`session_store.py:176-181`, `215-219`). -/
def deserializeValue (s : String) : PyVal :=
  match jsonLoads s with
  | some v => v
  | none => .pystr s

def deserializeFields : List (String × String) → PyDict
  | [] => .nil
  | (k, s) :: tl => .cons k (deserializeValue s) (deserializeFields tl)

/-! ### SHA-256 (`hashlib.sha256(image_data).hexdigest()`)

Words are `Nat` reduced mod `2^32`; the digest is the 64-character
lowercase-hex rendering of the eight state words. -/

def w32 (n : Nat) : Nat := n % 4294967296

def rotr32 (x n : Nat) : Nat := x / 2 ^ n + x % 2 ^ n * 2 ^ (32 - n)

def not32 (x : Nat) : Nat := 4294967295 - x

def shaCh (x y z : Nat) : Nat := (x &&& y) ^^^ (not32 x &&& z)

def shaMaj (x y z : Nat) : Nat := (x &&& y) ^^^ (x &&& z) ^^^ (y &&& z)

def bigSigma0 (x : Nat) : Nat := rotr32 x 2 ^^^ rotr32 x 13 ^^^ rotr32 x 22

def bigSigma1 (x : Nat) : Nat := rotr32 x 6 ^^^ rotr32 x 11 ^^^ rotr32 x 25

def smallSigma0 (x : Nat) : Nat := rotr32 x 7 ^^^ rotr32 x 18 ^^^ x / 2 ^ 3

def smallSigma1 (x : Nat) : Nat := rotr32 x 17 ^^^ rotr32 x 19 ^^^ x / 2 ^ 10

def shaK : List Nat :=
  [1116352408, 1899447441, 3049323471, 3921009573, 961987163, 1508970993,
   2453635748, 2870763221, 3624381080, 310598401, 607225278, 1426881987,
   1925078388, 2162078206, 2614888103, 3248222580, 3835390401, 4022224774,
   264347078, 604807628, 770255983, 1249150122, 1555081692, 1996064986,
   2554220882, 2821834349, 2952996808, 3210313671, 3336571891, 3584528711,
   113926993, 338241895, 666307205, 773529912, 1294757372, 1396182291,
   1695183700, 1986661051, 2177026350, 2456956037, 2730485921, 2820302411,
   3259730800, 3345764771, 3516065817, 3600352804, 4094571909, 275423344,
   430227734, 506948616, 659060556, 883997877, 958139571, 1322822218,
   1537002063, 1747873779, 1955562222, 2024104815, 2227730452, 2361852424,
   2428436474, 2756734187, 3204031479, 3329325298]

structure Sha256State : Type where
  a0 : Nat
  a1 : Nat
  a2 : Nat
  a3 : Nat
  a4 : Nat
  a5 : Nat
  a6 : Nat
  a7 : Nat

def shaInit : Sha256State :=
  ⟨1779033703, 3144134277, 1013904242, 2773480762,
   1359893119, 2600822924, 528734635, 1541459225⟩

def be64 (n : Nat) : List Nat :=
  [n / 2 ^ 56 % 256, n / 2 ^ 48 % 256, n / 2 ^ 40 % 256, n / 2 ^ 32 % 256,
   n / 2 ^ 24 % 256, n / 2 ^ 16 % 256, n / 2 ^ 8 % 256, n % 256]

def padMessage (msg : List Nat) : List Nat :=
  msg ++ 0x80 :: List.replicate ((119 - msg.length % 64) % 64) 0 ++ be64 (8 * msg.length)

def toBlocksF : Nat → List Nat → List (List Nat)
  | 0, _ => []
  | _ + 1, [] => []
  | fuel + 1, x :: xs => (x :: xs).take 64 :: toBlocksF fuel ((x :: xs).drop 64)

def toBlocks (l : List Nat) : List (List Nat) := toBlocksF l.length l

def toWords : List Nat → List Nat
  | b0 :: b1 :: b2 :: b3 :: rest => (((b0 * 256 + b1) * 256 + b2) * 256 + b3) :: toWords rest
  | _ => []

def extendSchedule (ws : List Nat) : Nat → List Nat
  | 0 => ws
  | k + 1 =>
      extendSchedule
        (ws ++ [w32 (smallSigma1 (ws.getD (ws.length - 2) 0) + ws.getD (ws.length - 7) 0 +
                     smallSigma0 (ws.getD (ws.length - 15) 0) + ws.getD (ws.length - 16) 0)]) k

def compressRound (s : Sha256State) (kw : Nat × Nat) : Sha256State :=
  let t1 := w32 (s.a7 + bigSigma1 s.a4 + shaCh s.a4 s.a5 s.a6 + kw.1 + kw.2)
  let t2 := w32 (bigSigma0 s.a0 + shaMaj s.a0 s.a1 s.a2)
  ⟨w32 (t1 + t2), s.a0, s.a1, s.a2, w32 (s.a3 + t1), s.a4, s.a5, s.a6⟩

def processBlock (s : Sha256State) (b : List Nat) : Sha256State :=
  let ws := extendSchedule (toWords b) 48
  let t := (shaK.zip ws).foldl compressRound s
  ⟨w32 (s.a0 + t.a0), w32 (s.a1 + t.a1), w32 (s.a2 + t.a2), w32 (s.a3 + t.a3),
   w32 (s.a4 + t.a4), w32 (s.a5 + t.a5), w32 (s.a6 + t.a6), w32 (s.a7 + t.a7)⟩

def sha256Core (msg : List Nat) : Sha256State :=
  (toBlocks (padMessage msg)).foldl processBlock shaInit

def hex8 (w : Nat) : List Char :=
  [hexDigitChar (w / 16 ^ 7 % 16), hexDigitChar (w / 16 ^ 6 % 16), hexDigitChar (w / 16 ^ 5 % 16),
   hexDigitChar (w / 16 ^ 4 % 16), hexDigitChar (w / 16 ^ 3 % 16), hexDigitChar (w / 16 ^ 2 % 16),
   hexDigitChar (w / 16 % 16), hexDigitChar (w % 16)]

/-- `hashlib.sha256(data).hexdigest()`. -/
def sha256hex (msg : List Nat) : String :=
  let s := sha256Core msg
  String.mk (hex8 s.a0 ++ hex8 s.a1 ++ hex8 s.a2 ++ hex8 s.a3 ++
             hex8 s.a4 ++ hex8 s.a5 ++ hex8 s.a6 ++ hex8 s.a7)

/-! ### The Redis keyspace

The store touches three key families: per-session hash maps
(`imca:session:{id}`), per-session sorted sets
(`imca:session:{id}:upload_order`), and global per-image hash maps
(`metadata:{hash}`).  TTLs are modelled as absolute expiry deadlines:
`EXPIRE key t` issued at time `now` records the deadline `now + t` (and is
a no-op on a missing key, as in Redis). -/

def upsert {α : Type} (k : String) (v : α) : List (String × α) → List (String × α)
  | [] => [(k, v)]
  | (k2, v2) :: tl => if k2 = k then (k, v) :: tl else (k2, v2) :: upsert k v tl

def removeKey {α : Type} (k : String) : List (String × α) → List (String × α)
  | [] => []
  | (k2, v2) :: tl => if k2 = k then removeKey k tl else (k2, v2) :: removeKey k tl

structure Redis : Type where
  hashes : List (String × List (String × String))
  zsets : List (String × List (String × Nat))
  deadlines : List (String × Nat)

def Redis.existsKey (st : Redis) (k : String) : Bool :=
  (st.hashes.lookup k).isSome || (st.zsets.lookup k).isSome

def Redis.hset (st : Redis) (k field value : String) : Redis :=
  { st with hashes := upsert k (upsert field value ((st.hashes.lookup k).getD [])) st.hashes }

def Redis.hsetMapping (st : Redis) (k : String) (fields : List (String × String)) : Redis :=
  fields.foldl (fun s p => s.hset k p.1 p.2) st

def Redis.hget (st : Redis) (k field : String) : Option String :=
  ((st.hashes.lookup k).getD []).lookup field

def Redis.hgetall (st : Redis) (k : String) : List (String × String) :=
  (st.hashes.lookup k).getD []

def Redis.zadd (st : Redis) (k member : String) (score : Nat) : Redis :=
  { st with zsets := upsert k (upsert member score ((st.zsets.lookup k).getD [])) st.zsets }

def Redis.zscore (st : Redis) (k member : String) : Option Nat :=
  ((st.zsets.lookup k).getD []).lookup member

/-- Sorted-set range order: ascending score, ties broken by member. -/
def zrangeLe (a b : String × Nat) : Bool :=
  a.2 < b.2 || (a.2 == b.2 && a.1 ≤ b.1)

def orderedInsert {α : Type} (le : α → α → Bool) (x : α) : List α → List α
  | [] => [x]
  | y :: tl => if le x y then x :: y :: tl else y :: orderedInsert le x tl

def sortByLe {α : Type} (le : α → α → Bool) (l : List α) : List α :=
  l.foldr (orderedInsert le) []

/-- `ZRANGE key 0 -1`: all members, ascending by (score, member). -/
def Redis.zrange (st : Redis) (k : String) : List String :=
  (sortByLe zrangeLe ((st.zsets.lookup k).getD [])).map Prod.fst

def Redis.expire (st : Redis) (k : String) (t now : Nat) : Redis :=
  if st.existsKey k then { st with deadlines := upsert k (now + t) st.deadlines } else st

def Redis.del (st : Redis) (k : String) : Redis :=
  ⟨removeKey k st.hashes, removeKey k st.zsets, removeKey k st.deadlines⟩

/-! ### `SessionStore`

Every operation takes the configured `ttl` (`self.session_ttl`) and the
current time `now` where the code reads a clock, and returns the result
together with the successor state.  `SessionStoreError` carries the
message, machine-readable code, severity, and the construction-time
timestamp. -/

structure SErr : Type where
  message : String
  code : String
  severity : String
  timestamp : Nat
deriving DecidableEq

/-- Model of `datetime.utcnow().isoformat()`: some clock-derived string
    (its content is never inspected by the store). -/
def isoTimestamp (now : Nat) : String := toString now

def sessionKey (sid : String) : String := "imca:session:" ++ sid

def uploadOrderKey (sid : String) : String := sessionKey sid ++ ":upload_order"

def metadataKey (h : String) : String := "metadata:" ++ h

def sessionNotFoundErr (sid : String) (now : Nat) : SErr :=
  ⟨"Session " ++ sid ++ " does not exist", "SESSION_NOT_FOUND", "error", now⟩

def sessionAlreadyExistsErr (sid : String) (now : Nat) : SErr :=
  ⟨"Session " ++ sid ++ " already exists", "SESSION_ALREADY_EXISTS", "error", now⟩

def invalidMetadataErr (now : Nat) : SErr :=
  ⟨"Metadata missing required sections", "INVALID_METADATA", "warning", now⟩

def imageNotInSessionErr (h sid : String) (now : Nat) : SErr :=
  ⟨"Image " ++ h ++ " not associated with session " ++ sid, "IMAGE_NOT_IN_SESSION", "error", now⟩

def metadataNotFoundErr (now : Nat) : SErr :=
  ⟨"Metadata not found for image", "METADATA_NOT_FOUND", "warning", now⟩

def invalidJsonDataErr (now : Nat) : SErr :=
  ⟨"Invalid JSON data in store", "INVALID_JSON_DATA", "error", now⟩

/-- The `_handle_errors` decorator's translation of a backend
    `RedisError` (not otherwise reachable in this in-memory model). -/
def redisOperationFailedErr (msg : String) (now : Nat) : SErr :=
  ⟨"Redis operation failed: " ++ msg, "REDIS_OPERATION_FAILED", "critical", now⟩

/-- `_validate_metadata`: at least one of the recognized section markers. -/
def hasRequiredSection (md : PyDict) : Bool :=
  md.entries.any (fun kv => kv.1 == "exif" || kv.1 == "iptc" || kv.1 == "xmp")

def create_session (ttl now : Nat) (sid : String) (st : Redis) : Except SErr Unit × Redis :=
  if st.existsKey (sessionKey sid) then (.error (sessionAlreadyExistsErr sid now), st)
  else
    let st1 := st.hset (sessionKey sid) "created_at" (isoTimestamp now)
    (.ok (), st1.expire (sessionKey sid) ttl now)

def store_image_metadata (ttl now : Nat) (sid : String) (image_data : List Nat) (md : PyDict)
    (st : Redis) : Except SErr String × Redis :=
  if ¬ st.existsKey (sessionKey sid) then (.error (sessionNotFoundErr sid now), st)
  else if ¬ hasRequiredSection md then (.error (invalidMetadataErr now), st)
  else
    let image_hash := sha256hex image_data
    let st1 := st.hsetMapping (metadataKey image_hash) (serializeMetadata md)
    let st2 := st1.expire (metadataKey image_hash) (ttl * 2) now
    let st3 := st2.zadd (uploadOrderKey sid) image_hash now
    let st4 := st3.expire (uploadOrderKey sid) ttl now
    let st5 := st4.expire (sessionKey sid) ttl now
    (.ok image_hash, st5)

def get_image_metadata (now : Nat) (sid image_hash : String) (st : Redis) :
    Except SErr PyDict × Redis :=
  if ¬ st.existsKey (sessionKey sid) then (.error (sessionNotFoundErr sid now), st)
  else
    match st.zscore (uploadOrderKey sid) image_hash with
    | none => (.error (imageNotInSessionErr image_hash sid now), st)
    | some sc =>
        if sc = 0 then (.error (imageNotInSessionErr image_hash sid now), st)
        else
          let m := st.hgetall (metadataKey image_hash)
          if m = [] then (.error (metadataNotFoundErr now), st)
          else (.ok (deserializeFields m), st)

/-- Python dict assignment: replace the value of an existing key in
    place, else append the new pair. -/
def PyDict.setItem : PyDict → String → PyVal → PyDict
  | .nil, k, v => .cons k v .nil
  | .cons k2 v2 tl, k, v =>
      if k2 = k then .cons k v tl else .cons k2 v2 (tl.setItem k v)

/-- The record literal `{"hash": h, **deserialized_data}`: `hash` is
    inserted first, then each deserialized field, a stored `hash` field
    overwriting the injected one in place. -/
def buildImageRecord (h : String) (fields : List (String × String)) : PyDict :=
  fields.foldl (fun d kv => d.setItem kv.1 (deserializeValue kv.2)) (.cons "hash" (.pystr h) .nil)

/-- `_batch_get_metadata`, parameterized by the iteration order `enum` the
    Python runtime gives `list(set(hashes))` (arbitrary and
    hash-randomized; `SetEnumOk` below is everything `set` guarantees). -/
def batch_get_metadata (enum : List String → List String) (st : Redis) (hashes : List String) :
    List PyDict :=
  (enum hashes).filterMap (fun h =>
    match st.hgetall (metadataKey h) with
    | [] => none
    | fields => some (buildImageRecord h fields))

/-- The contract of Python's `list(set(xs))`: some duplicate-free
    enumeration of the members, in no guaranteed order. -/
def SetEnumOk (inp out : List String) : Prop :=
  out.Nodup ∧ ∀ x, x ∈ out ↔ x ∈ inp

def get_session_images (enum : List String → List String) (now : Nat) (sid : String)
    (st : Redis) : Except SErr (List PyDict) × Redis :=
  if ¬ st.existsKey (sessionKey sid) then (.error (sessionNotFoundErr sid now), st)
  else (.ok (batch_get_metadata enum st (st.zrange (uploadOrderKey sid))), st)

def update_session_context (ttl now : Nat) (sid context_key : String) (context_data : PyVal)
    (st : Redis) : Except SErr Unit × Redis :=
  if ¬ st.existsKey (sessionKey sid) then (.error (sessionNotFoundErr sid now), st)
  else
    let st1 := st.hset (sessionKey sid) ("ctx:" ++ context_key) (jsonDumps context_data)
    (.ok (), st1.expire (sessionKey sid) ttl now)

def get_session_context (now : Nat) (sid context_key : String) (st : Redis) :
    Except SErr (Option PyVal) × Redis :=
  if ¬ st.existsKey (sessionKey sid) then (.error (sessionNotFoundErr sid now), st)
  else
    match st.hget (sessionKey sid) ("ctx:" ++ context_key) with
    | none => (.ok none, st)
    | some d =>
        if d = "" then (.ok none, st)
        else
          match jsonLoads d with
          | some v => (.ok (some v), st)
          | none => (.error (invalidJsonDataErr now), st)

def touch_session (ttl now : Nat) (sid : String) (st : Redis) : Except SErr Unit × Redis :=
  if ¬ st.existsKey (sessionKey sid) then (.error (sessionNotFoundErr sid now), st)
  else (.ok (), ((st.expire (sessionKey sid) ttl now).expire (uploadOrderKey sid) ttl now))

def delete_session (now : Nat) (sid : String) (st : Redis) : Except SErr Unit × Redis :=
  if ¬ st.existsKey (sessionKey sid) then (.error (sessionNotFoundErr sid now), st)
  else
    let image_hashes := st.zrange (uploadOrderKey sid)
    let st1 := (st.del (sessionKey sid)).del (uploadOrderKey sid)
    (.ok (), image_hashes.foldl (fun s h => s.del (metadataKey h)) st1)

set_option maxRecDepth 100000

/-! ### Well-formed values

The round-trip statements quantify over metadata whose strings are
printable ASCII (the serializer escapes only `"` and `\` there), whose
dict keys are distinct (Python dicts cannot repeat keys), and which
contain no float leaves. -/

def strWf (s : String) : Bool :=
  s.data.all (fun c => decide (0x20 ≤ c.toNat) && decide (c.toNat ≤ 0x7e))

def PyDict.hasKey : PyDict → String → Bool
  | .nil, _ => false
  | .cons k2 _ tl, k => k2 == k || tl.hasKey k

mutual

def PyVal.wf : PyVal → Bool
  | .pynone => true
  | .pybool _ => true
  | .pyint _ => true
  | .pystr s => strWf s
  | .pyfloat _ => false
  | .pylist xs => xs.wf
  | .pydict kvs => kvs.wf

def PyList.wf : PyList → Bool
  | .nil => true
  | .cons v tl => v.wf && tl.wf

def PyDict.wf : PyDict → Bool
  | .nil => true
  | .cons k v tl => strWf k && !(tl.hasKey k) && v.wf && tl.wf

end

/-- Python dict read access. -/
def PyDict.find : PyDict → String → Option PyVal
  | .nil, _ => none
  | .cons k2 v tl, k => if k2 = k then some v else tl.find k

/-! ### Association-list facts shared by the store proofs -/

theorem lookup_upsert_self {α : Type} (k : String) (v : α) (l : List (String × α)) :
    (upsert k v l).lookup k = some v := by
  induction l with
  | nil => simp [upsert, List.lookup]
  | cons p tl ih =>
      obtain ⟨k2, v2⟩ := p
      by_cases h : k2 = k
      · subst h; simp [upsert, List.lookup]
      · simp only [upsert, if_neg h, List.lookup]
        rw [show (k == k2) = false from beq_eq_false_iff_ne.mpr (Ne.symm h)]
        exact ih

theorem lookup_upsert_ne {α : Type} {k k2 : String} (v : α) (l : List (String × α))
    (h : k2 ≠ k) : (upsert k v l).lookup k2 = l.lookup k2 := by
  induction l with
  | nil => simp [upsert, List.lookup, beq_eq_false_iff_ne.mpr h]
  | cons p tl ih =>
      obtain ⟨k3, v3⟩ := p
      by_cases h3 : k3 = k
      · have e1 : (k2 == k) = false := beq_eq_false_iff_ne.mpr h
        have e2 : (k2 == k3) = false := beq_eq_false_iff_ne.mpr (h3 ▸ h)
        simp only [upsert, if_pos h3, List.lookup, e1, e2]
      · simp only [upsert, if_neg h3, List.lookup]
        cases hb : k2 == k3 with
        | true => rfl
        | false => exact ih

/-! ### Decimal digits: `str(int)` and its parse -/

theorem decDigitsF_irrel : ∀ (n f1 f2 : Nat) (acc : List Char), n < f1 → n < f2 →
    decDigitsF f1 n acc = decDigitsF f2 n acc := by
  intro n
  induction n using Nat.strongRecOn with
  | ind n ih =>
    intro f1 f2 acc h1 h2
    match f1, f2 with
    | f1 + 1, f2 + 1 =>
      simp only [decDigitsF]
      by_cases h : n < 10
      · simp [h]
      · simp only [if_neg h]
        exact ih (n / 10) (by omega) f1 f2 _ (by omega) (by omega)

theorem decDigits_unfold (n : Nat) (acc : List Char) :
    decDigits n acc = if n < 10 then Char.ofNat ('0'.toNat + n) :: acc
      else decDigits (n / 10) (Char.ofNat ('0'.toNat + n % 10) :: acc) := by
  show decDigitsF (n + 1) n acc = _
  by_cases h : n < 10
  · simp [decDigitsF, h]
  · simp only [decDigitsF, if_neg h]
    exact decDigitsF_irrel (n / 10) n (n / 10 + 1) _ (by omega) (by omega)

theorem decDigits_append (n : Nat) : ∀ acc : List Char,
    decDigits n acc = decDigits n [] ++ acc := by
  induction n using Nat.strongRecOn with
  | ind n ih =>
    intro acc
    rw [decDigits_unfold, decDigits_unfold n []]
    rcases Nat.lt_or_ge n 10 with h | h
    · rw [if_pos h, if_pos h]; rfl
    · have h10 : ¬ n < 10 := by omega
      rw [if_neg h10, if_neg h10,
        ih (n / 10) (by omega) (Char.ofNat ('0'.toNat + n % 10) :: acc),
        ih (n / 10) (by omega) [Char.ofNat ('0'.toNat + n % 10)]]
      simp

theorem decDigits_snoc (n : Nat) :
    decDigits n [] = (if n < 10 then [] else decDigits (n / 10) [])
      ++ [Char.ofNat ('0'.toNat + n % 10)] := by
  rw [decDigits_unfold]
  by_cases h : n < 10
  · simp [h, Nat.mod_eq_of_lt h]
  · simp only [if_neg h]
    exact decDigits_append (n / 10) [_]

theorem decDigits_ne_nil (n : Nat) : decDigits n [] ≠ [] := by
  rw [decDigits_snoc]; simp

theorem digit_char_spec (k : Nat) (h : k < 10) :
    isDec (Char.ofNat ('0'.toNat + k)) = true
    ∧ (Char.ofNat ('0'.toNat + k)).toNat - '0'.toNat = k
    ∧ (k ≠ 0 → Char.ofNat ('0'.toNat + k) ≠ '0') := by
  interval_cases k <;> exact ⟨by decide, by decide, fun h2 => by first | exact absurd rfl h2 | decide⟩

theorem decDigits_all_dec (n : Nat) : ∀ c ∈ decDigits n [], isDec c = true := by
  induction n using Nat.strongRecOn with
  | ind n ih =>
    rw [decDigits_snoc]
    intro c hc
    rw [List.mem_append] at hc
    cases hc with
    | inr h2 =>
        rw [List.mem_singleton] at h2; subst h2
        exact (digit_char_spec _ (Nat.mod_lt _ (by omega))).1
    | inl h2 =>
        by_cases h : n < 10
        · simp [h] at h2
        · exact ih (n / 10) (by omega) c (by simpa [h] using h2)

theorem decDigits_head (n : Nat) :
    ∃ c t, decDigits n [] = c :: t ∧ isDec c = true ∧ (1 ≤ n → c ≠ '0') := by
  induction n using Nat.strongRecOn with
  | ind n ih =>
    by_cases h : n < 10
    · refine ⟨Char.ofNat ('0'.toNat + n), [], by rw [decDigits_unfold]; simp [h], ?_, ?_⟩
      · exact (digit_char_spec n h).1
      · intro h1
        exact (digit_char_spec n h).2.2 (by omega)
    · obtain ⟨c, t, he, hd, hz⟩ := ih (n / 10) (by omega)
      refine ⟨c, t ++ [Char.ofNat ('0'.toNat + n % 10)], ?_, hd, fun _ => hz (by omega)⟩
      rw [decDigits_snoc, if_neg h, he]
      simp

theorem decValue_decDigits (n : Nat) : decValue (decDigits n []) = n := by
  induction n using Nat.strongRecOn with
  | ind n ih =>
    rw [decDigits_snoc]
    unfold decValue
    rw [List.foldl_append]
    by_cases h : n < 10
    · simp only [if_pos h, List.foldl_nil, List.foldl_cons]
      rw [(digit_char_spec _ (Nat.mod_lt _ (by omega))).2.1]
      omega
    · simp only [if_neg h, List.foldl_cons, List.foldl_nil]
      have := ih (n / 10) (by omega)
      unfold decValue at this
      rw [this, (digit_char_spec _ (Nat.mod_lt _ (by omega))).2.1]
      omega

/-! ### Number parsing inverts integer rendering -/

/-- A remainder that cannot extend a number literal: empty, or headed by
    a non-digit that is none of `.`, `e`, `E`.  Every position a JSON
    value ends at inside rendered output (`,`, `]`, `}`, end of input)
    qualifies. -/
def NumDelim : List Char → Prop
  | [] => True
  | c :: _ => isDec c = false ∧ c ≠ '.' ∧ c ≠ 'e' ∧ c ≠ 'E'

theorem isDec_ne {c : Char} (h : isDec c = true) (d : Char) (hd : isDec d = false) : c ≠ d :=
  fun e => by subst e; rw [h] at hd; cases hd

theorem takeDec_stop {cs : List Char} (h : NumDelim cs) : takeDec cs = ([], cs) := by
  cases cs with
  | nil => rfl
  | cons c t => simp [takeDec, h.1]

theorem takeDec_append (ds : List Char) (hds : ∀ c ∈ ds, isDec c = true)
    (rest : List Char) (hrest : takeDec rest = ([], rest)) :
    takeDec (ds ++ rest) = (ds, rest) := by
  induction ds with
  | nil => simpa using hrest
  | cons c t ih =>
      have hc : isDec c = true := hds c (by simp)
      have ht := ih (fun x hx => hds x (by simp [hx]))
      simp [takeDec, hc, ht]

theorem fracGroup_stop {c : Char} (t : List Char) (h : c ≠ '.') :
    fracGroup (c :: t) = ([], c :: t) := by
  simp [fracGroup, h]

theorem expGroup_stop {c : Char} (t : List Char) (he : c ≠ 'e') (hE : c ≠ 'E') :
    expGroup (c :: t) = ([], c :: t) := by
  simp [expGroup, he, hE]

theorem takeFracExp_stop {cs : List Char} (h : NumDelim cs) : takeFracExp cs = ([], cs) := by
  cases cs with
  | nil => rfl
  | cons c t =>
      obtain ⟨hd, hdot, he, hE⟩ := h
      simp [takeFracExp, fracGroup_stop t hdot, expGroup_stop t he hE]

theorem splitSign_cons_ne {c : Char} (t : List Char) (h : c ≠ '-') :
    splitSign (c :: t) = (false, c :: t) := by
  unfold splitSign
  split
  · next heq => rw [List.cons.injEq] at heq; exact absurd heq.1 h
  · rfl

/-- Parsing an unsigned rendered natural: consumes exactly its digits. -/
theorem parseNumBody_decDigits (n : Nat) (sgn : Bool) (rest : List Char) (hr : NumDelim rest) :
    parseNumBody sgn (decDigits n [] ++ rest)
      = some (PyVal.pyint ((if sgn then -1 else 1) * (n : Int)), rest) := by
  obtain ⟨c, t, he, hdec, hz⟩ := decDigits_head n
  rw [he, List.cons_append]
  by_cases h0 : n = 0
  · have hdd : decDigits 0 [] = ['0'] := by rw [decDigits_unfold]; rfl
    rw [h0, hdd] at he
    rw [List.cons.injEq] at he
    obtain ⟨hc0, ht0⟩ := he
    subst hc0; subst ht0; subst h0
    simp [parseNumBody, takeFracExp_stop hr, decValue]
  · have hcz : c ≠ '0' := hz (by omega)
    have htd : takeDec (t ++ rest) = (t, rest) := by
      refine takeDec_append t (fun x hx => decDigits_all_dec n x ?_) rest (takeDec_stop hr)
      rw [he]; exact List.mem_cons_of_mem c hx
    have hdv : decValue (c :: t) = n := by rw [← he]; exact decValue_decDigits n
    simp [parseNumBody, hcz, hdec, htd, takeFracExp_stop hr, hdv]

theorem parseNumber_intChars (i : Int) (rest : List Char) (hr : NumDelim rest) :
    parseNumber (intChars i ++ rest) = some (.pyint i, rest) := by
  by_cases hneg : i < 0
  · have harg : intChars i ++ rest = '-' :: (decDigits i.natAbs [] ++ rest) := by
      simp [intChars, hneg]
    rw [harg]
    unfold parseNumber
    rw [show splitSign ('-' :: (decDigits i.natAbs [] ++ rest))
          = (true, decDigits i.natAbs [] ++ rest) from rfl]
    refine (parseNumBody_decDigits i.natAbs true rest hr).trans ?_
    have hv : (if (true : Bool) then (-1 : Int) else 1) * (i.natAbs : Int) = i := by
      simp only [if_true]; omega
    rw [hv]
  · have harg : intChars i ++ rest = decDigits i.natAbs [] ++ rest := by
      simp [intChars, hneg]
    rw [harg]
    obtain ⟨c, t, he, hdec, hz⟩ := decDigits_head i.natAbs
    have hsign : splitSign (decDigits i.natAbs [] ++ rest)
        = (false, decDigits i.natAbs [] ++ rest) := by
      rw [he, List.cons_append]
      exact splitSign_cons_ne _ (isDec_ne hdec '-' (by decide))
    unfold parseNumber
    rw [hsign]
    refine (parseNumBody_decDigits i.natAbs false rest hr).trans ?_
    have hv : (if (false : Bool) then (-1 : Int) else 1) * (i.natAbs : Int) = i := by
      simp only [Bool.false_eq_true, if_false]; omega
    rw [hv]

/-! ### String parsing inverts string escaping -/

theorem strWf_mem {s : String} {c : Char} (h : strWf s = true) (hc : c ∈ s.data) :
    0x20 ≤ c.toNat ∧ c.toNat ≤ 0x7e := by
  simp only [strWf, List.all_eq_true, Bool.and_eq_true, decide_eq_true_eq] at h
  exact h c hc

theorem jsonEscapeChar_printable {c : Char} (h1 : 0x20 ≤ c.toNat) (h2 : c.toNat ≤ 0x7e)
    (hq : c ≠ '"') (hb : c ≠ '\\') : jsonEscapeChar c = [c] := by
  have hn : c ≠ '\n' := fun e => by subst e; simp at h1
  have hr : c ≠ '\r' := fun e => by subst e; simp at h1
  have ht : c ≠ '\t' := fun e => by subst e; simp at h1
  have h8 : c.toNat ≠ 8 := by omega
  have h12 : c.toNat ≠ 12 := by omega
  simp [jsonEscapeChar, hq, hb, hn, hr, ht, h8, h12, h1, h2]

theorem parseStringBody_escape (c : Char) (h1 : 0x20 ≤ c.toNat) (h2 : c.toNat ≤ 0x7e)
    (acc rest : List Char) :
    parseStringBody acc (jsonEscapeChar c ++ rest) = parseStringBody (c :: acc) rest := by
  by_cases hq : c = '"'
  · subst hq; rfl
  · by_cases hb : c = '\\'
    · subst hb; rfl
    · rw [jsonEscapeChar_printable h1 h2 hq hb]
      have hlt : ¬ c.toNat < 0x20 := by omega
      conv_lhs => rw [parseStringBody.eq_def]
      simp [hq, hb, hlt]

theorem parseStringBody_flatMap (cs : List Char)
    (hcs : ∀ c ∈ cs, 0x20 ≤ c.toNat ∧ c.toNat ≤ 0x7e) : ∀ acc rest : List Char,
    parseStringBody acc (cs.flatMap jsonEscapeChar ++ '"' :: rest)
      = some (String.mk (acc.reverse ++ cs), rest) := by
  induction cs with
  | nil =>
      intro acc rest
      rw [parseStringBody.eq_def]
      simp
  | cons c cs ih =>
      intro acc rest
      obtain ⟨h1, h2⟩ := hcs c (by simp)
      rw [List.flatMap_cons, List.append_assoc, parseStringBody_escape c h1 h2,
        ih (fun x hx => hcs x (by simp [hx]))]
      simp

theorem parseStringBody_quote (s : String) (hs : strWf s = true) (rest : List Char) :
    parseStringBody [] (s.data.flatMap jsonEscapeChar ++ '"' :: rest) = some (s, rest) := by
  rw [parseStringBody_flatMap s.data (fun c hc => strWf_mem hs hc)]
  cases s
  rfl

/-! ### Heads of rendered output and parser dispatch -/

theorem skipJsonWs_not_ws {c : Char} (t : List Char) (h : isJsonWs c = false) :
    skipJsonWs (c :: t) = c :: t := by
  simp [skipJsonWs, h]

theorem isDec_not_ws {c : Char} (h : isDec c = true) : isJsonWs c = false := by
  simp [isJsonWs, isDec_ne h ' ' (by decide), isDec_ne h '\t' (by decide),
    isDec_ne h '\n' (by decide), isDec_ne h '\r' (by decide)]

theorem numDelim_comma (t : List Char) : NumDelim (',' :: t) :=
  ⟨by decide, by decide, by decide, by decide⟩

theorem numDelim_rbracket (t : List Char) : NumDelim (']' :: t) :=
  ⟨by decide, by decide, by decide, by decide⟩

theorem numDelim_rbrace (t : List Char) : NumDelim ('}' :: t) :=
  ⟨by decide, by decide, by decide, by decide⟩

/-- Every rendered well-formed value starts with a non-whitespace
    character that closes no container. -/
theorem jsonRender_head (v : PyVal) (hv : v.wf = true) :
    ∃ c t, jsonRender v = c :: t ∧ isJsonWs c = false ∧ c ≠ ']' ∧ c ≠ '}' := by
  cases v with
  | pynone => exact ⟨'n', _, rfl, by decide, by decide, by decide⟩
  | pybool b =>
      cases b
      · exact ⟨'f', ['a', 'l', 's', 'e'], rfl, rfl, by decide, by decide⟩
      · exact ⟨'t', ['r', 'u', 'e'], rfl, rfl, by decide, by decide⟩
  | pyint n =>
      by_cases hneg : n < 0
      · refine ⟨'-', decDigits n.natAbs [], ?_, by decide, by decide, by decide⟩
        simp [jsonRender, intChars, hneg]
      · obtain ⟨c, t, he, hdec, _⟩ := decDigits_head n.natAbs
        refine ⟨c, t, ?_, isDec_not_ws hdec, isDec_ne hdec ']' (by decide),
          isDec_ne hdec '}' (by decide)⟩
        simp [jsonRender, intChars, hneg, he]
  | pystr s => exact ⟨'"', _, rfl, by decide, by decide, by decide⟩
  | pyfloat raw => exact absurd hv (by simp [PyVal.wf])
  | pylist xs =>
      cases xs with
      | nil => exact ⟨'[', _, rfl, by decide, by decide, by decide⟩
      | cons x tl => exact ⟨'[', _, rfl, by decide, by decide, by decide⟩
  | pydict kvs =>
      cases kvs with
      | nil => exact ⟨'{', _, rfl, by decide, by decide, by decide⟩
      | cons k x tl => exact ⟨'{', _, rfl, by decide, by decide, by decide⟩

theorem skipJsonWs_render (v : PyVal) (hv : v.wf = true) (x : List Char) :
    skipJsonWs (jsonRender v ++ x) = jsonRender v ++ x := by
  obtain ⟨c, t, he, hws, _, _⟩ := jsonRender_head v hv
  rw [he, List.cons_append, skipJsonWs_not_ws _ hws]

/-- Inputs that begin like a number reach the number branch. -/
theorem parseJsonVal_to_number (f : Nat) (c : Char) (t : List Char)
    (h1 : c ≠ '"') (h2 : c ≠ '{') (h3 : c ≠ '[') (h4 : c ≠ 'n') (h5 : c ≠ 't')
    (h6 : c ≠ 'f') (h7 : c ≠ 'N') (h8 : c ≠ 'I') (h9 : c ≠ '-') :
    parseJsonVal (f + 1) (c :: t) = parseNumber (c :: t) := by
  simp only [parseJsonVal]
  simp [h1, h2, h3, h4, h5, h6, h7, h8, h9]

theorem parseJsonVal_to_number_neg (f : Nat) (d : Char) (t2 : List Char) (hd : d ≠ 'I') :
    parseJsonVal (f + 1) ('-' :: d :: t2) = parseNumber ('-' :: d :: t2) := by
  simp only [parseJsonVal]
  simp [hd]

theorem parseJsonVal_list_step (f : Nat) (c : Char) (t : List Char)
    (hws : isJsonWs c = false) (hne : c ≠ ']') :
    parseJsonVal (f + 1) ('[' :: (c :: t)) =
      (match parseJsonElems f (c :: t) with
       | some (es, r3) => some (.pylist es, r3)
       | none => none) := by
  simp only [parseJsonVal]
  rw [skipJsonWs_not_ws _ hws]
  simp [hne]

theorem parseJsonVal_dict_step (f : Nat) (c : Char) (t : List Char)
    (hws : isJsonWs c = false) (hne : c ≠ '}') :
    parseJsonVal (f + 1) ('{' :: (c :: t)) =
      (match parseJsonMembers f (c :: t) with
       | some (ms, r3) => some (.pydict ms, r3)
       | none => none) := by
  simp only [parseJsonVal]
  rw [skipJsonWs_not_ws _ hws]
  simp [hne]

/-! ### The codec round trip: parsing inverts rendering -/

theorem numDelim_listTail (tl : PyList) (rest : List Char) :
    NumDelim (jsonRenderListTail tl ++ ']' :: rest) := by
  cases tl with
  | nil => exact numDelim_rbracket rest
  | cons x tl2 => exact numDelim_comma _

theorem numDelim_dictTail (tl : PyDict) (rest : List Char) :
    NumDelim (jsonRenderDictTail tl ++ '}' :: rest) := by
  cases tl with
  | nil => exact numDelim_rbrace rest
  | cons k v tl2 => exact numDelim_comma _

theorem skipJsonWs_space (x : List Char) : skipJsonWs (' ' :: x) = skipJsonWs x := rfl

theorem skipJsonWs_comma (x : List Char) : skipJsonWs (',' :: x) = ',' :: x := rfl

theorem skipJsonWs_colon (x : List Char) : skipJsonWs (':' :: x) = ':' :: x := rfl

theorem skipJsonWs_rbracket (x : List Char) : skipJsonWs (']' :: x) = ']' :: x := rfl

theorem skipJsonWs_rbrace (x : List Char) : skipJsonWs ('}' :: x) = '}' :: x := rfl

theorem skipJsonWs_jsonQuote (k : String) (x : List Char) :
    skipJsonWs (jsonQuote k ++ x) = jsonQuote k ++ x := rfl

mutual

theorem rtVal : ∀ (f : Nat) (v : PyVal) (rest : List Char),
    v.wf = true → (jsonRender v).length < f → NumDelim rest →
    parseJsonVal f (jsonRender v ++ rest) = some (v, rest)
  | 0, v, rest, _, hf, _ => absurd hf (Nat.not_lt_zero _)
  | f + 1, .pynone, rest, _, _, _ => rfl
  | f + 1, .pybool true, rest, _, _, _ => rfl
  | f + 1, .pybool false, rest, _, _, _ => rfl
  | f + 1, .pyfloat raw, rest, hv, _, _ => by simp [PyVal.wf] at hv
  | f + 1, .pyint n, rest, _, _, hr => by
      by_cases hneg : n < 0
      · obtain ⟨d, t, he, hdec, _⟩ := decDigits_head n.natAbs
        have harg : jsonRender (.pyint n) ++ rest = '-' :: d :: (t ++ rest) := by
          simp [jsonRender, intChars, hneg, he]
        rw [harg, parseJsonVal_to_number_neg f d (t ++ rest) (isDec_ne hdec 'I' (by decide))]
        have harg2 : ('-' : Char) :: d :: (t ++ rest) = intChars n ++ rest := by
          simp [intChars, hneg, he]
        rw [harg2, parseNumber_intChars n rest hr]
      · obtain ⟨d, t, he, hdec, _⟩ := decDigits_head n.natAbs
        have harg : jsonRender (.pyint n) ++ rest = d :: (t ++ rest) := by
          simp [jsonRender, intChars, hneg, he]
        rw [harg, parseJsonVal_to_number f d (t ++ rest)
          (isDec_ne hdec '"' (by decide)) (isDec_ne hdec '{' (by decide))
          (isDec_ne hdec '[' (by decide)) (isDec_ne hdec 'n' (by decide))
          (isDec_ne hdec 't' (by decide)) (isDec_ne hdec 'f' (by decide))
          (isDec_ne hdec 'N' (by decide)) (isDec_ne hdec 'I' (by decide))
          (isDec_ne hdec '-' (by decide))]
        have harg2 : d :: (t ++ rest) = intChars n ++ rest := by
          simp [intChars, hneg, he]
        rw [harg2, parseNumber_intChars n rest hr]
  | f + 1, .pystr s, rest, hv, _, _ => by
      have hs : strWf s = true := by simpa [PyVal.wf] using hv
      have harg : jsonRender (.pystr s) ++ rest
          = '"' :: (s.data.flatMap jsonEscapeChar ++ '"' :: rest) := by
        simp [jsonRender, jsonQuote]
      rw [harg]
      simp only [parseJsonVal]
      simp [parseStringBody_quote s hs rest]
  | f + 1, .pylist .nil, rest, _, _, _ => rfl
  | f + 1, .pylist (.cons x tl), rest, hv, hf, _ => by
      have hwf : x.wf = true ∧ tl.wf = true := by
        simpa [PyVal.wf, PyList.wf] using hv
      obtain ⟨c, t, he, hws, hbr, _⟩ := jsonRender_head x hwf.1
      have harg : jsonRender (.pylist (.cons x tl)) ++ rest
          = '[' :: (c :: (t ++ (jsonRenderListTail tl ++ ']' :: rest))) := by
        simp [jsonRender, he]
      rw [harg, parseJsonVal_list_step f c _ hws hbr]
      have harg2 : c :: (t ++ (jsonRenderListTail tl ++ ']' :: rest))
          = jsonRender x ++ (jsonRenderListTail tl ++ ']' :: rest) := by
        simp [he]
      rw [harg2, rtList f x tl rest hwf.1 hwf.2 (by
        have := hf
        simp only [jsonRender, List.length_cons, List.length_append,
          List.length_singleton] at this ⊢
        omega)]
  | f + 1, .pydict .nil, rest, _, _, _ => rfl
  | f + 1, .pydict (.cons k v tl), rest, hv, hf, _ => by
      have hwf : (strWf k = true ∧ PyDict.hasKey tl k = false) ∧ v.wf = true ∧ tl.wf = true := by
        simpa [PyVal.wf, PyDict.wf, Bool.and_eq_true, and_assoc] using hv
      have harg : jsonRender (.pydict (.cons k v tl)) ++ rest
          = '{' :: ('"' :: ((k.data.flatMap jsonEscapeChar ++ ['"'])
              ++ (':' :: ' ' :: (jsonRender v ++ (jsonRenderDictTail tl ++ '}' :: rest))))) := by
        simp [jsonRender, jsonQuote]
      rw [harg, parseJsonVal_dict_step f '"' _ (by decide) (by decide)]
      have harg2 : ('"' : Char) :: ((k.data.flatMap jsonEscapeChar ++ ['"'])
              ++ (':' :: ' ' :: (jsonRender v ++ (jsonRenderDictTail tl ++ '}' :: rest))))
          = jsonQuote k ++ (':' :: ' ' :: (jsonRender v ++ (jsonRenderDictTail tl ++ '}' :: rest))) := by
        simp [jsonQuote]
      rw [harg2, rtDict f k v tl rest hwf.1.1 hwf.2.1 hwf.2.2 (by
        have := hf
        simp only [jsonRender, jsonQuote, List.length_cons, List.length_append,
          List.length_singleton] at this ⊢
        omega)]

theorem rtList : ∀ (f : Nat) (x : PyVal) (tl : PyList) (rest : List Char),
    x.wf = true → tl.wf = true →
    (jsonRender x ++ jsonRenderListTail tl).length + 1 < f →
    parseJsonElems f (jsonRender x ++ (jsonRenderListTail tl ++ ']' :: rest))
      = some (.cons x tl, rest)
  | 0, x, tl, rest, _, _, hf => absurd hf (Nat.not_lt_zero _)
  | f + 1, x, tl, rest, hx, htl, hf => by
      simp only [parseJsonElems]
      rw [rtVal f x (jsonRenderListTail tl ++ ']' :: rest) hx
        (by simp only [List.length_append] at hf; omega) (numDelim_listTail tl rest)]
      cases tl with
      | nil =>
          simp [jsonRenderListTail, skipJsonWs_rbracket]
      | cons x2 tl2 =>
          have hwf2 : x2.wf = true ∧ tl2.wf = true := by
            simpa [PyList.wf] using htl
          have hrec := rtList f x2 tl2 rest hwf2.1 hwf2.2 (by
            simp only [List.length_append, jsonRenderListTail, List.length_cons] at hf ⊢
            omega)
          simp [jsonRenderListTail, skipJsonWs_comma, skipJsonWs_space,
            skipJsonWs_render x2 hwf2.1, hrec]

theorem rtDict : ∀ (f : Nat) (k : String) (v : PyVal) (tl : PyDict) (rest : List Char),
    strWf k = true → v.wf = true → tl.wf = true →
    (jsonQuote k ++ ':' :: ' ' :: (jsonRender v ++ jsonRenderDictTail tl)).length + 1 < f →
    parseJsonMembers f (jsonQuote k ++ (':' :: ' ' :: (jsonRender v ++ (jsonRenderDictTail tl ++ '}' :: rest))))
      = some (.cons k v tl, rest)
  | 0, k, v, tl, rest, _, _, _, hf => absurd hf (Nat.not_lt_zero _)
  | f + 1, k, v, tl, rest, hk, hv, htl, hf => by
      have harg : jsonQuote k ++ (':' :: ' ' :: (jsonRender v ++ (jsonRenderDictTail tl ++ '}' :: rest)))
          = '"' :: (k.data.flatMap jsonEscapeChar
              ++ '"' :: (':' :: ' ' :: (jsonRender v ++ (jsonRenderDictTail tl ++ '}' :: rest)))) := by
        simp [jsonQuote]
      rw [harg]
      simp only [parseJsonMembers, if_true]
      rw [parseStringBody_quote k hk _]
      have hrecv := rtVal f v (jsonRenderDictTail tl ++ '}' :: rest) hv (by
          simp only [List.length_append, List.length_cons, jsonQuote] at hf ⊢
          omega)
        (numDelim_dictTail tl rest)
      cases tl with
      | nil =>
          simp only [jsonRenderDictTail, List.nil_append] at hrecv
          simp [hrecv, jsonRenderDictTail, skipJsonWs_colon, skipJsonWs_space,
            skipJsonWs_render v hv, skipJsonWs_rbrace]
      | cons k2 v2 tl2 =>
          have hwf2 : (strWf k2 = true ∧ PyDict.hasKey tl2 k2 = false)
              ∧ v2.wf = true ∧ tl2.wf = true := by
            simpa [PyDict.wf, Bool.and_eq_true, and_assoc] using htl
          have hrecd := rtDict f k2 v2 tl2 rest hwf2.1.1 hwf2.2.1 hwf2.2.2 (by
            simp only [List.length_append, List.length_cons, jsonQuote,
              jsonRenderDictTail] at hf ⊢
            omega)
          simp only [jsonRenderDictTail, List.cons_append, List.append_assoc] at hrecv
          simp [hrecv, hrecd, jsonRenderDictTail, skipJsonWs_colon, skipJsonWs_space,
            skipJsonWs_render v hv, skipJsonWs_comma, skipJsonWs_jsonQuote]

end

theorem jsonLoads_dumps (v : PyVal) (hv : v.wf = true) : jsonLoads (jsonDumps v) = some v := by
  obtain ⟨c, t, he, hws, _, _⟩ := jsonRender_head v hv
  have hskip : skipJsonWs (jsonRender v) = jsonRender v := by
    rw [he]; exact skipJsonWs_not_ws _ hws
  have h1 : parseJsonVal ((jsonRender v).length + 1) (jsonRender v ++ []) = some (v, [])
    := rtVal _ v [] hv (by simp) trivial
  rw [List.append_nil] at h1
  show (match parseJsonVal ((skipJsonWs (jsonRender v)).length + 1) (skipJsonWs (jsonRender v)) with
        | some (w, r) => if skipJsonWs r = [] then some w else none
        | none => none) = some v
  rw [hskip, h1]
  rfl

/-- The per-value composite the store applies: serialize on write
    (`session_store.py:120-128`), JSON-parse-else-keep on read
    (`176-181`). -/
def roundTripValue (v : PyVal) : PyVal := deserializeValue (serializeValue v)

theorem roundTripValue_dict (kvs : PyDict) (h : (PyVal.pydict kvs).wf = true) :
    roundTripValue (.pydict kvs) = .pydict kvs := by
  show deserializeValue (jsonDumps (.pydict kvs)) = .pydict kvs
  unfold deserializeValue
  rw [jsonLoads_dumps _ h]

theorem roundTripValue_list (xs : PyList) (h : (PyVal.pylist xs).wf = true) :
    roundTripValue (.pylist xs) = .pylist xs := by
  show deserializeValue (jsonDumps (.pylist xs)) = .pylist xs
  unfold deserializeValue
  rw [jsonLoads_dumps _ h]

theorem roundTripValue_int (n : Int) : roundTripValue (.pyint n) = .pyint n := by
  show deserializeValue (jsonDumps (.pyint n)) = .pyint n
  unfold deserializeValue
  rw [jsonLoads_dumps (.pyint n) (by simp [PyVal.wf])]

theorem roundTripValue_none : roundTripValue .pynone = .pystr "" := rfl

theorem roundTripValue_bool (b : Bool) :
    roundTripValue (.pybool b) = .pystr (if b then "True" else "False") := by
  cases b <;> rfl

theorem roundTripValue_str (s : String) : roundTripValue (.pystr s) = deserializeValue s := rfl

/-- Keys kept, every value sent through the store's write/read composite. -/
def PyDict.mapRT : PyDict → PyDict
  | .nil => .nil
  | .cons k v tl => .cons k (roundTripValue v) tl.mapRT

theorem deserializeFields_serializeMetadata : ∀ md : PyDict,
    deserializeFields (serializeMetadata md) = md.mapRT
  | .nil => rfl
  | .cons k v tl => by
      show deserializeFields ((k, serializeValue v) :: serializeMetadata tl)
        = .cons k (roundTripValue v) tl.mapRT
      simp only [deserializeFields, deserializeFields_serializeMetadata tl]
      rfl

/-! ### Redis state projections -/

theorem expire_hashes (st : Redis) (k : String) (t now : Nat) :
    (st.expire k t now).hashes = st.hashes := by
  unfold Redis.expire; split <;> rfl

theorem expire_zsets (st : Redis) (k : String) (t now : Nat) :
    (st.expire k t now).zsets = st.zsets := by
  unfold Redis.expire; split <;> rfl

theorem zadd_hashes (st : Redis) (k m : String) (s : Nat) :
    (st.zadd k m s).hashes = st.hashes := rfl

theorem zadd_deadlines (st : Redis) (k m : String) (s : Nat) :
    (st.zadd k m s).deadlines = st.deadlines := rfl

theorem hset_zsets (st : Redis) (k f v : String) : (st.hset k f v).zsets = st.zsets := rfl

theorem hset_deadlines (st : Redis) (k f v : String) :
    (st.hset k f v).deadlines = st.deadlines := rfl

theorem hsetMapping_zsets (st : Redis) (k : String) (fields : List (String × String)) :
    (st.hsetMapping k fields).zsets = st.zsets := by
  induction fields generalizing st with
  | nil => rfl
  | cons p ps ih => exact ih (st.hset k p.1 p.2)

theorem hsetMapping_deadlines (st : Redis) (k : String) (fields : List (String × String)) :
    (st.hsetMapping k fields).deadlines = st.deadlines := by
  induction fields generalizing st with
  | nil => rfl
  | cons p ps ih => exact ih (st.hset k p.1 p.2)

theorem existsKey_expire (st : Redis) (k k2 : String) (t now : Nat) :
    (st.expire k t now).existsKey k2 = st.existsKey k2 := by
  unfold Redis.expire; split <;> rfl

theorem existsKey_hset_of (st : Redis) {k2 : String} (k f v : String)
    (h : st.existsKey k2 = true) : (st.hset k f v).existsKey k2 = true := by
  unfold Redis.existsKey Redis.hset at *
  by_cases hk : k2 = k
  · subst hk; simp [lookup_upsert_self]
  · simpa [lookup_upsert_ne _ _ hk] using h

theorem existsKey_hsetMapping_of (st : Redis) {k2 : String} (k : String)
    (fields : List (String × String)) (h : st.existsKey k2 = true) :
    (st.hsetMapping k fields).existsKey k2 = true := by
  induction fields generalizing st with
  | nil => exact h
  | cons p ps ih => exact ih (st.hset k p.1 p.2) (existsKey_hset_of st k p.1 p.2 h)

theorem existsKey_zadd_of (st : Redis) {k2 : String} (k m : String) (s : Nat)
    (h : st.existsKey k2 = true) : (st.zadd k m s).existsKey k2 = true := by
  unfold Redis.existsKey Redis.zadd at *
  by_cases hk : k2 = k
  · subst hk; simp [lookup_upsert_self]
  · simpa [lookup_upsert_ne _ _ hk] using h

theorem zscore_hset (st : Redis) (k f v k2 m : String) :
    (st.hset k f v).zscore k2 m = st.zscore k2 m := rfl

theorem zscore_expire (st : Redis) (k k2 m : String) (t now : Nat) :
    (st.expire k t now).zscore k2 m = st.zscore k2 m := by
  unfold Redis.expire; split <;> rfl

theorem zscore_hsetMapping (st : Redis) (k : String) (fields : List (String × String))
    (k2 m : String) : (st.hsetMapping k fields).zscore k2 m = st.zscore k2 m := by
  unfold Redis.zscore
  rw [show (st.hsetMapping k fields).zsets = st.zsets from hsetMapping_zsets st k fields]

theorem zscore_zadd_self (st : Redis) (k m : String) (s : Nat) :
    (st.zadd k m s).zscore k m = some s := by
  unfold Redis.zscore Redis.zadd
  simp [lookup_upsert_self]

theorem hgetall_hset_self (st : Redis) (k f v : String) :
    (st.hset k f v).hgetall k = upsert f v (st.hgetall k) := by
  unfold Redis.hgetall Redis.hset
  simp [lookup_upsert_self]

theorem hgetall_hset_other (st : Redis) {k2 : String} (k f v : String) (h : k2 ≠ k) :
    (st.hset k f v).hgetall k2 = st.hgetall k2 := by
  unfold Redis.hgetall Redis.hset
  simp [lookup_upsert_ne _ _ h]

theorem hgetall_hsetMapping_self (st : Redis) (k : String) (fields : List (String × String)) :
    (st.hsetMapping k fields).hgetall k
      = fields.foldl (fun rec p => upsert p.1 p.2 rec) (st.hgetall k) := by
  induction fields generalizing st with
  | nil => rfl
  | cons p ps ih =>
      show (Redis.hsetMapping (st.hset k p.1 p.2) k ps).hgetall k = _
      rw [ih (st.hset k p.1 p.2), hgetall_hset_self]
      rfl

theorem hgetall_expire (st : Redis) (k k2 : String) (t now : Nat) :
    (st.expire k t now).hgetall k2 = st.hgetall k2 := by
  unfold Redis.expire; split <;> rfl

theorem hgetall_zadd (st : Redis) (k m : String) (s : Nat) (k2 : String) :
    (st.zadd k m s).hgetall k2 = st.hgetall k2 := rfl

theorem deadline_expire_self (st : Redis) (k : String) (t now : Nat)
    (h : st.existsKey k = true) :
    (st.expire k t now).deadlines.lookup k = some (now + t) := by
  unfold Redis.expire
  rw [if_pos (by simp [h])]
  exact lookup_upsert_self _ _ _

theorem deadline_expire_other (st : Redis) {k2 : String} (k : String) (t now : Nat)
    (h : k2 ≠ k) : (st.expire k t now).deadlines.lookup k2 = st.deadlines.lookup k2 := by
  unfold Redis.expire
  split
  · exact lookup_upsert_ne _ _ h
  · rfl

theorem sessionKey_ne_uploadOrderKey (sid : String) : sessionKey sid ≠ uploadOrderKey sid := by
  intro h
  have := congrArg String.length h
  simp only [uploadOrderKey, String.length_append] at this
  have h13 : (":upload_order" : String).length = 13 := rfl
  omega

theorem sessionKey_ne_metadataKey (sid mh : String) : sessionKey sid ≠ metadataKey mh := by
  intro he
  have hd := congrArg String.data he
  have h1 : (sessionKey sid).data = 'i' :: ("mca:session:".data ++ sid.data) := rfl
  have h2 : (metadataKey mh).data = 'm' :: ("etadata:".data ++ mh.data) := rfl
  rw [h1, h2] at hd
  exact absurd (List.cons_eq_cons.mp hd).1 (by decide)

theorem hashesLookup_hset_other (st : Redis) {k2 : String} (k f v : String) (h : k2 ≠ k) :
    (st.hset k f v).hashes.lookup k2 = st.hashes.lookup k2 := by
  unfold Redis.hset
  exact lookup_upsert_ne _ _ h

theorem hashesLookup_hsetMapping_other (st : Redis) {k2 : String} (k : String)
    (fields : List (String × String)) (h : k2 ≠ k) :
    (st.hsetMapping k fields).hashes.lookup k2 = st.hashes.lookup k2 := by
  induction fields generalizing st with
  | nil => rfl
  | cons p ps ih =>
      rw [show st.hsetMapping k (p :: ps) = (st.hset k p.1 p.2).hsetMapping k ps from rfl,
        ih (st.hset k p.1 p.2)]
      exact hashesLookup_hset_other st k p.1 p.2 h

theorem hget_hset_other_field (st : Redis) (k f v : String) {f2 : String} (h : f2 ≠ f) :
    (st.hset k f v).hget k f2 = st.hget k f2 := by
  unfold Redis.hget Redis.hset
  rw [lookup_upsert_self, Option.getD_some]
  exact lookup_upsert_ne _ _ h

theorem hget_expire (st : Redis) (k : String) (t now : Nat) (k2 f : String) :
    (st.expire k t now).hget k2 f = st.hget k2 f := by
  unfold Redis.hget
  rw [expire_hashes]

/-! ### Folded field writes (`HSET key mapping=...`) -/

theorem upsert_append_of_none {α : Type} (k : String) (v : α) (l : List (String × α))
    (h : l.lookup k = none) : upsert k v l = l ++ [(k, v)] := by
  induction l with
  | nil => rfl
  | cons p tl ih =>
      obtain ⟨k2, v2⟩ := p
      simp only [List.lookup] at h
      cases hb : k == k2 with
      | true => rw [hb] at h; cases h
      | false =>
          rw [hb] at h
          have hne : k2 ≠ k := fun e => by subst e; simp at hb
          simp [upsert, hne, ih h]

theorem foldlUpsert_of_disjoint {α : Type} : ∀ (fields : List (String × α))
    (acc : List (String × α)),
    (∀ k ∈ fields.map Prod.fst, acc.lookup k = none) → (fields.map Prod.fst).Nodup →
    fields.foldl (fun r p => upsert p.1 p.2 r) acc = acc ++ fields
  | [], acc, _, _ => by simp
  | (k, v) :: ps, acc, hdisj, hnd => by
      simp only [List.foldl_cons]
      have hk : acc.lookup k = none := hdisj k (by simp)
      rw [upsert_append_of_none k v acc hk]
      rw [foldlUpsert_of_disjoint ps (acc ++ [(k, v)]) ?_ (by simpa using hnd.of_cons)]
      · simp
      · intro k2 hk2
        have hne : k2 ≠ k := by
          intro e
          subst e
          simp only [List.map_cons, List.nodup_cons] at hnd
          exact hnd.1 hk2
        rw [List.lookup_append, hdisj k2 (by simp [hk2])]
        simp [List.lookup, beq_eq_false_iff_ne.mpr hne]

theorem lookup_foldlUpsert_not_mem {α : Type} : ∀ (fields : List (String × α))
    (acc : List (String × α)) (k : String), k ∉ fields.map Prod.fst →
    (fields.foldl (fun r p => upsert p.1 p.2 r) acc).lookup k = acc.lookup k
  | [], acc, k, _ => rfl
  | (k2, v2) :: ps, acc, k, hk => by
      simp only [List.foldl_cons]
      rw [lookup_foldlUpsert_not_mem ps _ k (fun h => hk (by simp [h]))]
      exact lookup_upsert_ne v2 acc (fun e => hk (by simp [e]))

theorem lookup_foldlUpsert_mem {α : Type} : ∀ (fields : List (String × α))
    (acc : List (String × α)) (k : String) (v : α), (fields.map Prod.fst).Nodup →
    fields.lookup k = some v →
    (fields.foldl (fun r p => upsert p.1 p.2 r) acc).lookup k = some v
  | [], acc, k, v, _, hl => by cases hl
  | (k2, v2) :: ps, acc, k, v, hnd, hl => by
      simp only [List.foldl_cons]
      simp only [List.lookup] at hl
      cases hb : k == k2 with
      | true =>
          rw [hb] at hl
          have hkk : k = k2 := by simpa using hb
          subst hkk
          injection hl with hv
          subst hv
          rw [lookup_foldlUpsert_not_mem ps _ k (by
            simp only [List.map_cons, List.nodup_cons] at hnd
            exact hnd.1)]
          exact lookup_upsert_self _ _ _
      | false =>
          rw [hb] at hl
          exact lookup_foldlUpsert_mem ps _ k v (by
            simp only [List.map_cons, List.nodup_cons] at hnd
            exact hnd.2) hl

/-! ### Digest shape -/

theorem hexDigitChar_mem (n : Nat) (h : n < 16) :
    hexDigitChar n ∈ ("0123456789abcdef" : String).data := by
  interval_cases n <;> decide

theorem sha256hex_length (msg : List Nat) : (sha256hex msg).length = 64 := by
  show (hex8 _ ++ hex8 _ ++ hex8 _ ++ hex8 _ ++ hex8 _ ++ hex8 _ ++ hex8 _ ++ hex8 _).length = 64
  simp [hex8, List.length_append]

theorem hex8_mem (w : Nat) : ∀ c ∈ hex8 w, c ∈ ("0123456789abcdef" : String).data := by
  intro c hc
  simp only [hex8, List.mem_cons, List.not_mem_nil, or_false] at hc
  rcases hc with h | h | h | h | h | h | h | h <;>
    exact h ▸ hexDigitChar_mem _ (Nat.mod_lt _ (by omega))

theorem sha256hex_charset (msg : List Nat) :
    ∀ c ∈ (sha256hex msg).data, c ∈ ("0123456789abcdef" : String).data := by
  intro c hc
  have hc2 : c ∈ (hex8 (sha256Core msg).a0 ++ hex8 (sha256Core msg).a1 ++ hex8 (sha256Core msg).a2
      ++ hex8 (sha256Core msg).a3 ++ hex8 (sha256Core msg).a4 ++ hex8 (sha256Core msg).a5
      ++ hex8 (sha256Core msg).a6 ++ hex8 (sha256Core msg).a7) := hc
  simp only [List.mem_append] at hc2
  rcases hc2 with (((((((h | h) | h) | h) | h) | h) | h) | h) <;> exact hex8_mem _ c h

theorem lookup_mem {α : Type} {k : String} {v : α} : ∀ {l : List (String × α)},
    l.lookup k = some v → (k, v) ∈ l
  | [], h => by cases h
  | (k2, v2) :: tl, h => by
      simp only [List.lookup] at h
      cases hb : k == k2 with
      | true =>
          rw [hb] at h
          injection h with hv
          have : k = k2 := by simpa using hb
          subst this; subst hv
          exact List.mem_cons_self _ _
      | false =>
          rw [hb] at h
          exact List.mem_cons_of_mem _ (lookup_mem h)

/-! ### Claim theorems -/

/-- C2: against a session id with no session record, every operation other
    than `create_session` fails with the `SESSION_NOT_FOUND` error (state
    untouched) while `create_session` succeeds; against an existing id,
    `create_session` fails with `SESSION_ALREADY_EXISTS`. -/
theorem C2_session_existence_gate (ttl now : Nat) (sid : String) (st : Redis)
    (enum : List String → List String) (data : List Nat) (md : PyDict)
    (ihash ckey : String) (cdata : PyVal) :
    (st.existsKey (sessionKey sid) = false →
      touch_session ttl now sid st = (.error (sessionNotFoundErr sid now), st) ∧
      delete_session now sid st = (.error (sessionNotFoundErr sid now), st) ∧
      store_image_metadata ttl now sid data md st = (.error (sessionNotFoundErr sid now), st) ∧
      get_image_metadata now sid ihash st = (.error (sessionNotFoundErr sid now), st) ∧
      get_session_images enum now sid st = (.error (sessionNotFoundErr sid now), st) ∧
      update_session_context ttl now sid ckey cdata st
        = (.error (sessionNotFoundErr sid now), st) ∧
      get_session_context now sid ckey st = (.error (sessionNotFoundErr sid now), st) ∧
      (∃ st2, create_session ttl now sid st = (.ok (), st2)) ∧
      (sessionNotFoundErr sid now).code = "SESSION_NOT_FOUND") ∧
    (st.existsKey (sessionKey sid) = true →
      create_session ttl now sid st = (.error (sessionAlreadyExistsErr sid now), st) ∧
      (sessionAlreadyExistsErr sid now).code = "SESSION_ALREADY_EXISTS") := by
  constructor
  · intro h
    have hc : create_session ttl now sid st
        = (.ok (), (st.hset (sessionKey sid) "created_at"
            (isoTimestamp now)).expire (sessionKey sid) ttl now) := by
      simp [create_session, h]
    refine ⟨?_, ?_, ?_, ?_, ?_, ?_, ?_, ⟨_, hc⟩, rfl⟩ <;>
      simp [touch_session, delete_session, store_image_metadata, get_image_metadata,
        get_session_images, update_session_context, get_session_context, h]
  · intro h
    exact ⟨by simp [create_session, h], rfl⟩

/-- C2 witness: on the empty store, `touch_session` of an uncreated id
    fails with `SESSION_NOT_FOUND` and `create_session` succeeds; after
    that creation, `create_session` again fails with
    `SESSION_ALREADY_EXISTS`. -/
theorem C2_session_existence_gate_witness :
    touch_session 100 5 "s1" ⟨[], [], []⟩ = (.error (sessionNotFoundErr "s1" 5), ⟨[], [], []⟩) ∧
    (∃ st2, create_session 100 5 "s1" ⟨[], [], []⟩ = (.ok (), st2)) ∧
    create_session 100 7 "s1" ((create_session 100 1 "s1" ⟨[], [], []⟩).2)
      = (.error (sessionAlreadyExistsErr "s1" 7), (create_session 100 1 "s1" ⟨[], [], []⟩).2) :=
  ⟨((C2_session_existence_gate 100 5 "s1" ⟨[], [], []⟩ id [] .nil "" "" .pynone).1 rfl).1,
   ((C2_session_existence_gate 100 5 "s1" ⟨[], [], []⟩ id [] .nil "" "" .pynone).1 rfl).2.2.2.2.2.2.2.1,
   ((C2_session_existence_gate 100 7 "s1" ((create_session 100 1 "s1" ⟨[], [], []⟩).2)
      id [] .nil "" "" .pynone).2 rfl).1⟩

/-- C3: two successful stores of byte-identical payloads return the same
    hash — the lowercase SHA-256 hex digest of the bytes, 64 hexadecimal
    characters — regardless of session, metadata, configured TTL, and
    call time. -/
theorem C3_content_hash_stable (ttl1 now1 ttl2 now2 : Nat) (sid1 sid2 : String)
    (data : List Nat) (md1 md2 : PyDict) (st1 st2 : Redis) (r1 r2 : String)
    (h1 : (store_image_metadata ttl1 now1 sid1 data md1 st1).1 = .ok r1)
    (h2 : (store_image_metadata ttl2 now2 sid2 data md2 st2).1 = .ok r2) :
    r1 = r2 ∧ r1 = sha256hex data ∧ r1.length = 64 ∧
    ∀ c ∈ r1.data, c ∈ ("0123456789abcdef" : String).data := by
  have hr : ∀ (ttl now : Nat) (sid : String) (md : PyDict) (st : Redis) (r : String),
      (store_image_metadata ttl now sid data md st).1 = .ok r → r = sha256hex data := by
    intro ttl now sid md st r h
    unfold store_image_metadata at h
    split at h
    · cases h
    · split at h
      · cases h
      · injection h with h; exact h.symm
  have e1 := hr _ _ _ _ _ _ h1
  have e2 := hr _ _ _ _ _ _ h2
  subst e1
  exact ⟨e2.symm, rfl, sha256hex_length data, sha256hex_charset data⟩

/-- C3 witness: storing the bytes `[1, 2]` in two different sessions of
    two different stores succeeds and the theorem's conclusions hold. -/
theorem C3_content_hash_stable_witness :
    (sha256hex [1, 2]).length = 64 := by
  have h1 : (store_image_metadata 100 2 "s1" [1, 2] (.cons "exif" (.pystr "a") .nil)
      ((create_session 100 1 "s1" ⟨[], [], []⟩).2)).1 = .ok (sha256hex [1, 2]) := by rfl
  have h2 : (store_image_metadata 50 9 "other" [1, 2] (.cons "iptc" (.pystr "z") .nil)
      ((create_session 50 3 "other" ⟨[], [], []⟩).2)).1 = .ok (sha256hex [1, 2]) := by rfl
  exact (C3_content_hash_stable 100 2 50 9 "s1" "other" [1, 2] _ _ _ _ _ _ h1 h2).2.2.1

/-- C7: on an existing session, a metadata map with none of the sections
    `exif` / `iptc` / `xmp` is rejected with the warning-severity
    `INVALID_METADATA` error and the state is returned unchanged: no
    record write, no index entry, no TTL renewal. -/
theorem C7_schema_gate_rejects_before_write (ttl now : Nat) (sid : String) (data : List Nat)
    (md : PyDict) (st : Redis) (hs : st.existsKey (sessionKey sid) = true)
    (hv : hasRequiredSection md = false) :
    store_image_metadata ttl now sid data md st = (.error (invalidMetadataErr now), st) ∧
    (invalidMetadataErr now).code = "INVALID_METADATA" ∧
    (invalidMetadataErr now).severity = "warning" := by
  exact ⟨by simp [store_image_metadata, hs, hv], rfl, rfl⟩

/-- C7 witness: an empty metadata map on a freshly created session is
    rejected with `INVALID_METADATA` and the state is unchanged. -/
theorem C7_schema_gate_rejects_before_write_witness :
    store_image_metadata 100 2 "s1" [1, 2] .nil ((create_session 100 1 "s1" ⟨[], [], []⟩).2)
      = (.error (invalidMetadataErr 2), (create_session 100 1 "s1" ⟨[], [], []⟩).2) :=
  (C7_schema_gate_rejects_before_write 100 2 "s1" [1, 2] .nil
    ((create_session 100 1 "s1" ⟨[], [], []⟩).2) rfl rfl).1

/-- All scores in every sorted set are nonzero.  Every state the store
    builds satisfies this: index scores are `datetime.utcnow().timestamp()`
    values, which are positive; the predicate makes the Python truthiness
    test `not conn.zscore(...)` coincide with "member absent". -/
def ScoresPositive (st : Redis) : Prop :=
  ∀ p ∈ st.zsets, ∀ q ∈ p.2, q.2 ≠ 0

theorem zscore_ne_zero_of_positive {st : Redis} (hpos : ScoresPositive st)
    {k m : String} {sc : Nat} (h : st.zscore k m = some sc) : sc ≠ 0 := by
  unfold Redis.zscore at h
  cases hz : st.zsets.lookup k with
  | none => rw [hz] at h; cases h
  | some l =>
      rw [hz] at h
      simp only [Option.getD] at h
      exact hpos (k, l) (lookup_mem hz) (m, sc) (lookup_mem h)

/-- C4: a hash indexed by session X but not by session Y is retrievable
    through X and rejected through Y with `IMAGE_NOT_IN_SESSION`, although
    the metadata record lives under the global `metadata:{hash}` key. -/
theorem C4_session_isolation (now : Nat) (sidX sidY ihash : String) (st : Redis)
    (hpos : ScoresPositive st)
    (hx : st.existsKey (sessionKey sidX) = true)
    (hy : st.existsKey (sessionKey sidY) = true)
    (hin : ∃ sc, st.zscore (uploadOrderKey sidX) ihash = some sc)
    (hout : st.zscore (uploadOrderKey sidY) ihash = none)
    (hmeta : st.hgetall (metadataKey ihash) ≠ []) :
    get_image_metadata now sidY ihash st = (.error (imageNotInSessionErr ihash sidY now), st) ∧
    get_image_metadata now sidX ihash st
      = (.ok (deserializeFields (st.hgetall (metadataKey ihash))), st) ∧
    (imageNotInSessionErr ihash sidY now).code = "IMAGE_NOT_IN_SESSION" := by
  obtain ⟨sc, hsc⟩ := hin
  have hnz : sc ≠ 0 := zscore_ne_zero_of_positive hpos hsc
  refine ⟨?_, ?_, rfl⟩
  · simp [get_image_metadata, hy, hout]
  · simp [get_image_metadata, hx, hsc, hnz, hmeta]

/-- C4 witness: after storing bytes `[1, 2]` only in session `s1`, the
    hash is readable from `s1` and rejected from session `s2`. -/
theorem C4_session_isolation_witness :
    (get_image_metadata 9 "s2" (sha256hex [1, 2])
        ((store_image_metadata 100 3 "s1" [1, 2] (.cons "exif" (.pystr "a") .nil)
          ((create_session 100 2 "s2" ((create_session 100 1 "s1" ⟨[], [], []⟩).2)).2)).2)).1
      = .error (imageNotInSessionErr (sha256hex [1, 2]) "s2" 9) := by
  have h := C4_session_isolation 9 "s1" "s2" (sha256hex [1, 2])
    ((store_image_metadata 100 3 "s1" [1, 2] (.cons "exif" (.pystr "a") .nil)
      ((create_session 100 2 "s2" ((create_session 100 1 "s1" ⟨[], [], []⟩).2)).2)).2)
    (by unfold ScoresPositive; decide) (by rfl) (by rfl) ⟨3, by rfl⟩ (by rfl) (by decide)
  exact congrArg Prod.fst h.1

/-- C5 counterexample: re-storing the same bytes with the fresh metadata
    map `{exif: "c"}` leaves the earlier record's `extra` field in place —
    `HSET` with a mapping merges fields, it does not replace the record —
    refuting "no field of the earlier record survives". -/
theorem C5_counterexample :
    (store_image_metadata 100 3 "s1" [1, 2] (.cons "exif" (.pystr "c") .nil)
        ((store_image_metadata 100 2 "s1" [1, 2]
            (.cons "exif" (.pystr "a") (.cons "extra" (.pystr "b") .nil))
            ((create_session 100 1 "s1" ⟨[], [], []⟩).2)).2)).1
      = .ok (sha256hex [1, 2]) ∧
    (((store_image_metadata 100 3 "s1" [1, 2] (.cons "exif" (.pystr "c") .nil)
        ((store_image_metadata 100 2 "s1" [1, 2]
            (.cons "exif" (.pystr "a") (.cons "extra" (.pystr "b") .nil))
            ((create_session 100 1 "s1" ⟨[], [], []⟩).2)).2)).2).hgetall
        (metadataKey (sha256hex [1, 2]))).lookup "extra" = some "b" ∧
    "extra" ∉ (serializeMetadata (.cons "exif" (.pystr "c") .nil)).map Prod.fst := by
  refine ⟨by rfl, by rfl, by decide⟩

/-- C5 amended: a later successful store for the same hash upserts the
    serialized fields of the new map into the stored record — same-named
    fields are overwritten, fields of the earlier record absent from the
    new map survive. -/
theorem C5_store_merges_record (ttl now : Nat) (sid : String) (data : List Nat)
    (md : PyDict) (st : Redis)
    (hs : st.existsKey (sessionKey sid) = true)
    (hv : hasRequiredSection md = true)
    (hnd : ((serializeMetadata md).map Prod.fst).Nodup) :
    ∃ st2, store_image_metadata ttl now sid data md st = (.ok (sha256hex data), st2) ∧
      (∀ k v, (serializeMetadata md).lookup k = some v →
        (st2.hgetall (metadataKey (sha256hex data))).lookup k = some v) ∧
      (∀ k, k ∉ (serializeMetadata md).map Prod.fst →
        (st2.hgetall (metadataKey (sha256hex data))).lookup k
          = (st.hgetall (metadataKey (sha256hex data))).lookup k) := by
  have hstore : store_image_metadata ttl now sid data md st
      = (.ok (sha256hex data),
          ((((st.hsetMapping (metadataKey (sha256hex data)) (serializeMetadata md)).expire
            (metadataKey (sha256hex data)) (ttl * 2) now).zadd (uploadOrderKey sid)
            (sha256hex data) now).expire (uploadOrderKey sid) ttl now).expire (sessionKey sid)
            ttl now) := by
    simp [store_image_metadata, hs, hv]
  refine ⟨_, hstore, ?_, ?_⟩ <;>
    rw [show ((((((st.hsetMapping (metadataKey (sha256hex data)) (serializeMetadata md)).expire
          (metadataKey (sha256hex data)) (ttl * 2) now).zadd (uploadOrderKey sid)
          (sha256hex data) now).expire (uploadOrderKey sid) ttl now).expire (sessionKey sid)
          ttl now).hgetall (metadataKey (sha256hex data)))
        = (serializeMetadata md).foldl (fun rec p => upsert p.1 p.2 rec)
            (st.hgetall (metadataKey (sha256hex data))) from by
      rw [hgetall_expire, hgetall_expire, hgetall_zadd, hgetall_expire,
        hgetall_hsetMapping_self]]
  · intro k v hk
    exact lookup_foldlUpsert_mem _ _ k v hnd hk
  · intro k hk
    exact lookup_foldlUpsert_not_mem _ _ k hk

/-- C5 amended witness: in the counterexample trace, the second store's
    `exif` field overwrote the old value while `extra` survived. -/
theorem C5_store_merges_record_witness :
    ∃ st2, store_image_metadata 100 3 "s1" [1, 2] (.cons "exif" (.pystr "c") .nil)
        ((store_image_metadata 100 2 "s1" [1, 2]
            (.cons "exif" (.pystr "a") (.cons "extra" (.pystr "b") .nil))
            ((create_session 100 1 "s1" ⟨[], [], []⟩).2)).2)
        = (.ok (sha256hex [1, 2]), st2) ∧
      (∀ k v, (serializeMetadata (.cons "exif" (.pystr "c") .nil)).lookup k = some v →
        (st2.hgetall (metadataKey (sha256hex [1, 2]))).lookup k = some v) ∧
      (∀ k, k ∉ (serializeMetadata (.cons "exif" (.pystr "c") .nil)).map Prod.fst →
        (st2.hgetall (metadataKey (sha256hex [1, 2]))).lookup k
          = (((store_image_metadata 100 2 "s1" [1, 2]
              (.cons "exif" (.pystr "a") (.cons "extra" (.pystr "b") .nil))
              ((create_session 100 1 "s1" ⟨[], [], []⟩).2)).2).hgetall
              (metadataKey (sha256hex [1, 2]))).lookup k) :=
  C5_store_merges_record 100 3 "s1" [1, 2] (.cons "exif" (.pystr "c") .nil)
    ((store_image_metadata 100 2 "s1" [1, 2]
        (.cons "exif" (.pystr "a") (.cons "extra" (.pystr "b") .nil))
        ((create_session 100 1 "s1" ⟨[], [], []⟩).2)).2)
    (by rfl) (by rfl) (by decide)

/-- Errors an operation may surface: each raised error's (code, severity)
    pair is drawn from `allowed` and its timestamp is the raise time. -/
def errOk {α : Type} (now : Nat) (allowed : List (String × String)) :
    Except SErr α × Redis → Prop
  | (.ok _, _) => True
  | (.error e, _) => (e.code, e.severity) ∈ allowed ∧ e.timestamp = now

/-- C8 counterexample: a reachable trace (two sessions share a hash, one
    is deleted, taking the global record with it) makes `get_image_metadata`
    raise `METADATA_NOT_FOUND` with severity `warning`, not `error` as the
    claim's taxonomy places the missing-image family. -/
theorem C8_counterexample :
    (get_image_metadata 6 "s1" (sha256hex [1, 2])
        ((delete_session 5 "s2"
          ((store_image_metadata 100 4 "s2" [1, 2] (.cons "exif" (.pystr "a") .nil)
            ((store_image_metadata 100 3 "s1" [1, 2] (.cons "exif" (.pystr "a") .nil)
              ((create_session 100 2 "s2"
                ((create_session 100 1 "s1" ⟨[], [], []⟩).2)).2)).2)).2)).2)).1
      = .error (metadataNotFoundErr 6) ∧
    (metadataNotFoundErr 6).code = "METADATA_NOT_FOUND" ∧
    (metadataNotFoundErr 6).severity = "warning" ∧
    (metadataNotFoundErr 6).severity ≠ "error" := by
  refine ⟨by rfl, rfl, rfl, by decide⟩

/-- C8 amended: every raised error carries its machine-readable code,
    severity and raise-time timestamp, and the taxonomy holds with one
    amendment: `METADATA_NOT_FOUND` is severity `warning` (the code marks
    the missing record as a stale reference, not a fatal error);
    `SESSION_NOT_FOUND`, `SESSION_ALREADY_EXISTS`, `IMAGE_NOT_IN_SESSION`
    and `INVALID_JSON_DATA` are `error`, `INVALID_METADATA` is `warning`,
    and the backend-failure translation is `critical`. -/
theorem C8_error_taxonomy (ttl now : Nat) (sid : String) (st : Redis)
    (enum : List String → List String) (data : List Nat) (md : PyDict)
    (ihash ckey msg : String) (cdata : PyVal) :
    errOk now [("SESSION_ALREADY_EXISTS", "error")] (create_session ttl now sid st) ∧
    errOk now [("SESSION_NOT_FOUND", "error")] (touch_session ttl now sid st) ∧
    errOk now [("SESSION_NOT_FOUND", "error")] (delete_session now sid st) ∧
    errOk now [("SESSION_NOT_FOUND", "error"), ("INVALID_METADATA", "warning")]
      (store_image_metadata ttl now sid data md st) ∧
    errOk now [("SESSION_NOT_FOUND", "error"), ("IMAGE_NOT_IN_SESSION", "error"),
        ("METADATA_NOT_FOUND", "warning")]
      (get_image_metadata now sid ihash st) ∧
    errOk now [("SESSION_NOT_FOUND", "error")] (get_session_images enum now sid st) ∧
    errOk now [("SESSION_NOT_FOUND", "error")]
      (update_session_context ttl now sid ckey cdata st) ∧
    errOk now [("SESSION_NOT_FOUND", "error"), ("INVALID_JSON_DATA", "error")]
      (get_session_context now sid ckey st) ∧
    (redisOperationFailedErr msg now).severity = "critical" ∧
    (redisOperationFailedErr msg now).code = "REDIS_OPERATION_FAILED" := by
  refine ⟨?_, ?_, ?_, ?_, ?_, ?_, ?_, ?_, rfl, rfl⟩
  · unfold create_session
    split <;> simp [errOk, sessionAlreadyExistsErr]
  · unfold touch_session
    split <;> simp [errOk, sessionNotFoundErr]
  · unfold delete_session
    split <;> simp [errOk, sessionNotFoundErr]
  · unfold store_image_metadata
    repeat' split
    all_goals simp [errOk, sessionNotFoundErr, invalidMetadataErr]
  · unfold get_image_metadata
    repeat' split
    all_goals try simp [errOk, sessionNotFoundErr, imageNotInSessionErr, metadataNotFoundErr]
    all_goals by_cases hm : st.hgetall (metadataKey ihash) = [] <;>
      simp [errOk, hm, metadataNotFoundErr]
  · unfold get_session_images
    split <;> simp [errOk, sessionNotFoundErr]
  · unfold update_session_context
    split <;> simp [errOk, sessionNotFoundErr]
  · unfold get_session_context
    repeat' split
    all_goals simp [errOk, sessionNotFoundErr, invalidJsonDataErr]

/-- C9 counterexample: on a session created at time 1 with TTL 100 (expiry
    deadline 101), reading context at time 50 succeeds but leaves the
    deadline at 101 — it does not renew the TTL to 50 + 100. -/
theorem C9_counterexample :
    (get_session_context 50 "s1" "k" ((create_session 100 1 "s1" ⟨[], [], []⟩).2)).1
      = .ok none ∧
    (get_session_context 50 "s1" "k" ((create_session 100 1 "s1" ⟨[], [], []⟩).2)).2
      = (create_session 100 1 "s1" ⟨[], [], []⟩).2 ∧
    ((get_session_context 50 "s1" "k"
        ((create_session 100 1 "s1" ⟨[], [], []⟩).2)).2).deadlines.lookup (sessionKey "s1")
      = some 101 ∧
    (101 : Nat) ≠ 50 + 100 := by
  refine ⟨by rfl, by rfl, by rfl, by decide⟩

/-- C9 amended: only `touch_session`, `store_image_metadata` and
    `update_session_context` renew the session record's TTL (deadline
    becomes now + ttl); the read operations `get_image_metadata`,
    `get_session_images` and `get_session_context` return the state
    entirely unchanged; and the renewing operations leave the other
    stored data for the session unchanged: `touch_session` changes no
    hash or sorted set, `store_image_metadata` leaves the session
    record (its `created_at` and every `ctx:*` field) untouched, and
    `update_session_context` changes no sorted set and leaves every
    session-record field other than the written `ctx:{key}` field
    untouched. -/
theorem C9_ttl_renewal (ttl now : Nat) (sid : String) (st : Redis)
    (enum : List String → List String) (data : List Nat) (md : PyDict)
    (ihash ckey : String) (cdata : PyVal)
    (hs : st.existsKey (sessionKey sid) = true) :
    ((touch_session ttl now sid st).2).deadlines.lookup (sessionKey sid) = some (now + ttl) ∧
    (hasRequiredSection md = true →
      ((store_image_metadata ttl now sid data md st).2).deadlines.lookup (sessionKey sid)
        = some (now + ttl)) ∧
    ((update_session_context ttl now sid ckey cdata st).2).deadlines.lookup (sessionKey sid)
      = some (now + ttl) ∧
    (get_image_metadata now sid ihash st).2 = st ∧
    (get_session_images enum now sid st).2 = st ∧
    (get_session_context now sid ckey st).2 = st ∧
    ((touch_session ttl now sid st).2).hashes = st.hashes ∧
    ((touch_session ttl now sid st).2).zsets = st.zsets ∧
    ((update_session_context ttl now sid ckey cdata st).2).zsets = st.zsets ∧
    (hasRequiredSection md = true →
      ((store_image_metadata ttl now sid data md st).2).hashes.lookup (sessionKey sid)
        = st.hashes.lookup (sessionKey sid)) ∧
    (∀ f, f ≠ "ctx:" ++ ckey →
      ((update_session_context ttl now sid ckey cdata st).2).hget (sessionKey sid) f
        = st.hget (sessionKey sid) f) := by
  refine ⟨?_, ?_, ?_, ?_, ?_, ?_, ?_, ?_, ?_, ?_, ?_⟩
  · rw [show (touch_session ttl now sid st).2
        = ((st.expire (sessionKey sid) ttl now).expire (uploadOrderKey sid) ttl now) from by
      simp [touch_session, hs]]
    rw [deadline_expire_other _ _ _ _ (sessionKey_ne_uploadOrderKey sid)]
    exact deadline_expire_self st _ _ _ hs
  · intro hv
    rw [show (store_image_metadata ttl now sid data md st).2
        = ((((st.hsetMapping (metadataKey (sha256hex data)) (serializeMetadata md)).expire
            (metadataKey (sha256hex data)) (ttl * 2) now).zadd (uploadOrderKey sid)
            (sha256hex data) now).expire (uploadOrderKey sid) ttl now).expire (sessionKey sid)
            ttl now from by simp [store_image_metadata, hs, hv]]
    refine deadline_expire_self _ _ _ _ ?_
    rw [existsKey_expire]
    refine existsKey_zadd_of _ _ _ _ ?_
    rw [existsKey_expire]
    exact existsKey_hsetMapping_of st _ _ hs
  · rw [show (update_session_context ttl now sid ckey cdata st).2
        = (st.hset (sessionKey sid) ("ctx:" ++ ckey) (jsonDumps cdata)).expire
            (sessionKey sid) ttl now from by simp [update_session_context, hs]]
    exact deadline_expire_self _ _ _ _ (existsKey_hset_of st _ _ _ hs)
  · unfold get_image_metadata
    repeat' split
    all_goals try rfl
    all_goals dsimp only
    all_goals split <;> rfl
  · unfold get_session_images
    split <;> rfl
  · unfold get_session_context
    repeat' split
    all_goals rfl
  · rw [show (touch_session ttl now sid st).2
        = ((st.expire (sessionKey sid) ttl now).expire (uploadOrderKey sid) ttl now) from by
      simp [touch_session, hs]]
    rw [expire_hashes, expire_hashes]
  · rw [show (touch_session ttl now sid st).2
        = ((st.expire (sessionKey sid) ttl now).expire (uploadOrderKey sid) ttl now) from by
      simp [touch_session, hs]]
    rw [expire_zsets, expire_zsets]
  · rw [show (update_session_context ttl now sid ckey cdata st).2
        = (st.hset (sessionKey sid) ("ctx:" ++ ckey) (jsonDumps cdata)).expire
            (sessionKey sid) ttl now from by simp [update_session_context, hs]]
    rw [expire_zsets, hset_zsets]
  · intro hv
    rw [show (store_image_metadata ttl now sid data md st).2
        = ((((st.hsetMapping (metadataKey (sha256hex data)) (serializeMetadata md)).expire
            (metadataKey (sha256hex data)) (ttl * 2) now).zadd (uploadOrderKey sid)
            (sha256hex data) now).expire (uploadOrderKey sid) ttl now).expire (sessionKey sid)
            ttl now from by simp [store_image_metadata, hs, hv]]
    rw [expire_hashes, expire_hashes, zadd_hashes, expire_hashes]
    exact hashesLookup_hsetMapping_other st _ _ (sessionKey_ne_metadataKey sid _)
  · intro f hf
    rw [show (update_session_context ttl now sid ckey cdata st).2
        = (st.hset (sessionKey sid) ("ctx:" ++ ckey) (jsonDumps cdata)).expire
            (sessionKey sid) ttl now from by simp [update_session_context, hs]]
    rw [hget_expire]
    exact hget_hset_other_field st _ _ _ hf

/-- C9 amended witness: on a freshly created session, touching at time 50
    with TTL 100 moves the deadline to 150, a context read leaves the
    state unchanged, and a context write leaves the session record's
    `created_at` field untouched. -/
theorem C9_ttl_renewal_witness :
    ((touch_session 100 50 "s1"
        ((create_session 100 1 "s1" ⟨[], [], []⟩).2)).2).deadlines.lookup (sessionKey "s1")
      = some (50 + 100) ∧
    (get_session_context 50 "s1" "k" ((create_session 100 1 "s1" ⟨[], [], []⟩).2)).2
      = (create_session 100 1 "s1" ⟨[], [], []⟩).2 ∧
    ((update_session_context 100 50 "s1" "k" .pynone
        ((create_session 100 1 "s1" ⟨[], [], []⟩).2)).2).hget (sessionKey "s1") "created_at"
      = ((create_session 100 1 "s1" ⟨[], [], []⟩).2).hget (sessionKey "s1") "created_at" :=
  ⟨(C9_ttl_renewal 100 50 "s1" ((create_session 100 1 "s1" ⟨[], [], []⟩).2)
      id [] .nil "" "k" .pynone (by rfl)).1,
   (C9_ttl_renewal 100 50 "s1" ((create_session 100 1 "s1" ⟨[], [], []⟩).2)
      id [] .nil "" "k" .pynone (by rfl)).2.2.2.2.2.1,
   (C9_ttl_renewal 100 50 "s1" ((create_session 100 1 "s1" ⟨[], [], []⟩).2)
      id [] .nil "" "k" .pynone (by rfl)).2.2.2.2.2.2.2.2.2.2 "created_at" (by decide)⟩

/-! ### Shape of the records `get_session_images` returns -/

theorem PyDict.find_setItem_self : ∀ (d : PyDict) (k : String) (v : PyVal),
    (d.setItem k v).find k = some v
  | .nil, k, v => by simp [PyDict.setItem, PyDict.find]
  | .cons k2 v2 tl, k, v => by
      by_cases h : k2 = k
      · simp [PyDict.setItem, h, PyDict.find]
      · simp [PyDict.setItem, h, PyDict.find, find_setItem_self tl k v]

theorem PyDict.find_setItem_ne : ∀ (d : PyDict) (k k2 : String) (v : PyVal), k2 ≠ k →
    (d.setItem k v).find k2 = d.find k2
  | .nil, k, k2, v, h => by
      have hne : ¬ k = k2 := fun e => h e.symm
      simp [PyDict.setItem, PyDict.find, hne]
  | .cons k3 v3 tl, k, k2, v, h => by
      by_cases h3 : k3 = k
      · subst h3
        have hne : ¬ k3 = k2 := fun e => h e.symm
        simp [PyDict.setItem, PyDict.find, hne]
      · by_cases h2 : k3 = k2
        · simp [PyDict.setItem, h3, PyDict.find, h2, h]
        · simp [PyDict.setItem, h3, PyDict.find, h2, find_setItem_ne tl k k2 v h]

def imageRecordStep (d : PyDict) (kv : String × String) : PyDict :=
  d.setItem kv.1 (deserializeValue kv.2)

theorem buildImageRecord_foldl (h : String) (fields : List (String × String)) :
    buildImageRecord h fields
      = fields.foldl imageRecordStep (.cons "hash" (.pystr h) .nil) := rfl

theorem find_foldlStep_isSome (fields : List (String × String)) (base : PyDict) (k : String)
    (hk : (base.find k).isSome = true) :
    ((fields.foldl imageRecordStep base).find k).isSome = true := by
  induction fields generalizing base with
  | nil => exact hk
  | cons kv ps ih =>
      refine ih _ ?_
      by_cases he : kv.1 = k
      · subst he; rw [imageRecordStep, PyDict.find_setItem_self]; rfl
      · rw [imageRecordStep, PyDict.find_setItem_ne _ _ _ _ (fun e => he e.symm)]
        exact hk

theorem find_foldlStep_not_mem (fields : List (String × String)) (base : PyDict) (k : String)
    (hk : k ∉ fields.map Prod.fst) :
    (fields.foldl imageRecordStep base).find k = base.find k := by
  induction fields generalizing base with
  | nil => rfl
  | cons kv ps ih =>
      rw [List.foldl_cons, ih _ (fun hmem => hk (by simp [hmem])),
        imageRecordStep, PyDict.find_setItem_ne _ _ _ _ (fun e => hk (by simp [e]))]

theorem find_foldlStep_mem : ∀ (fields : List (String × String)) (base : PyDict)
    (k : String) (s : String), (fields.map Prod.fst).Nodup → fields.lookup k = some s →
    (fields.foldl imageRecordStep base).find k = some (deserializeValue s)
  | [], base, k, s, _, hl => by cases hl
  | (k2, v2) :: ps, base, k, s, hnd, hl => by
      simp only [List.foldl_cons]
      simp only [List.lookup] at hl
      cases hb : k == k2 with
      | true =>
          rw [hb] at hl
          injection hl with hv
          have hkk : k = k2 := by simpa using hb
          subst hkk; subst hv
          rw [find_foldlStep_not_mem ps _ k (by
            simp only [List.map_cons, List.nodup_cons] at hnd
            exact hnd.1)]
          rw [imageRecordStep, PyDict.find_setItem_self]
      | false =>
          rw [hb] at hl
          exact find_foldlStep_mem ps _ k s (by
            simp only [List.map_cons, List.nodup_cons] at hnd
            exact hnd.2) hl

theorem lookup_none_not_mem {α : Type} {k : String} : ∀ {l : List (String × α)},
    l.lookup k = none → k ∉ l.map Prod.fst
  | [], _ => by simp
  | (k2, v2) :: tl, h => by
      simp only [List.lookup] at h
      cases hb : k == k2 with
      | true => rw [hb] at h; cases h
      | false =>
          rw [hb] at h
          have hne : k ≠ k2 := by simpa using hb
          simp [hne, lookup_none_not_mem h]

/-- C10 counterexample: storing a metadata map that carries its own
    `hash` field whose stored value is exactly the content hash makes the
    returned record's `hash` field equal the content hash even though the
    map has its own `hash` key — refuting the claim's "only for metadata
    maps without their own 'hash' key". -/
theorem C10_counterexample :
    (get_session_images id 9 "s1"
        ((store_image_metadata 100 2 "s1" [1, 2]
          (.cons "exif" (.pystr "x") (.cons "hash" (.pystr (sha256hex [1, 2])) .nil))
          ((create_session 100 1 "s1" ⟨[], [], []⟩).2)).2)).1
      = .ok [PyDict.cons "hash" (.pystr (sha256hex [1, 2]))
              (.cons "exif" (.pystr "x") .nil)] ∧
    (PyDict.cons "exif" (PyVal.pystr "x")
        (.cons "hash" (.pystr (sha256hex [1, 2])) .nil)).hasKey "hash" = true ∧
    (PyDict.cons "hash" (PyVal.pystr (sha256hex [1, 2]))
        (.cons "exif" (.pystr "x") .nil)).find "hash" = some (.pystr (sha256hex [1, 2])) := by
  refine ⟨by rfl, by rfl, by rfl⟩

/-- C10 amended: every record `get_session_images` returns is
    `{"hash": h, **deserialized_fields}` for some indexed hash `h`: the
    `hash` field is always present; it equals the content hash whenever
    the stored record has no own `hash` field; when the stored record has
    one, the deserialized stored value overrides the injected hash (and
    may coincide with the content hash). -/
theorem C10_hash_field_override (enum : List String → List String) (now : Nat)
    (sid : String) (st : Redis) (recs : List PyDict) (rec : PyDict)
    (hok : (get_session_images enum now sid st).1 = .ok recs) (hmem : rec ∈ recs) :
    ∃ h, rec = buildImageRecord h (st.hgetall (metadataKey h)) ∧
      ((rec.find "hash").isSome = true) ∧
      ((st.hgetall (metadataKey h)).lookup "hash" = none →
        rec.find "hash" = some (.pystr h)) ∧
      (∀ s, ((st.hgetall (metadataKey h)).map Prod.fst).Nodup →
        (st.hgetall (metadataKey h)).lookup "hash" = some s →
        rec.find "hash" = some (deserializeValue s)) := by
  unfold get_session_images at hok
  split at hok
  · cases hok
  · injection hok with hok
    subst hok
    unfold batch_get_metadata at hmem
    rw [List.mem_filterMap] at hmem
    obtain ⟨h, _, hf⟩ := hmem
    refine ⟨h, ?_⟩
    cases hgl : st.hgetall (metadataKey h) with
    | nil => rw [hgl] at hf; cases hf
    | cons a l =>
        rw [hgl] at hf
        injection hf with hf
        subst hf
        rw [← hgl]
        refine ⟨rfl, ?_, ?_, ?_⟩
        · rw [buildImageRecord_foldl]
          exact find_foldlStep_isSome _ _ _ (by simp [PyDict.find])
        · intro hnone
          rw [buildImageRecord_foldl,
            find_foldlStep_not_mem _ _ _ (lookup_none_not_mem hnone)]
          simp [PyDict.find]
        · intro s hnd hsome
          rw [buildImageRecord_foldl, find_foldlStep_mem _ _ _ _ hnd hsome]

/-- C10 amended witness: applied to the counterexample trace, where the
    stored record's own `hash` field overrides with the same string. -/
theorem C10_hash_field_override_witness :
    ∃ h, (PyDict.cons "hash" (.pystr (sha256hex [1, 2])) (.cons "exif" (.pystr "x") .nil))
        = buildImageRecord h
            ((((store_image_metadata 100 2 "s1" [1, 2]
              (.cons "exif" (.pystr "x") (.cons "hash" (.pystr (sha256hex [1, 2])) .nil))
              ((create_session 100 1 "s1" ⟨[], [], []⟩).2)).2)).hgetall (metadataKey h)) ∧
      (((PyDict.cons "hash" (.pystr (sha256hex [1, 2]))
          (.cons "exif" (.pystr "x") .nil)).find "hash").isSome = true) ∧
      (((((store_image_metadata 100 2 "s1" [1, 2]
            (.cons "exif" (.pystr "x") (.cons "hash" (.pystr (sha256hex [1, 2])) .nil))
            ((create_session 100 1 "s1" ⟨[], [], []⟩).2)).2)).hgetall
            (metadataKey h)).lookup "hash" = none →
        (PyDict.cons "hash" (.pystr (sha256hex [1, 2]))
          (.cons "exif" (.pystr "x") .nil)).find "hash" = some (.pystr h)) ∧
      (∀ s, (((((store_image_metadata 100 2 "s1" [1, 2]
            (.cons "exif" (.pystr "x") (.cons "hash" (.pystr (sha256hex [1, 2])) .nil))
            ((create_session 100 1 "s1" ⟨[], [], []⟩).2)).2)).hgetall
            (metadataKey h)).map Prod.fst).Nodup →
        ((((store_image_metadata 100 2 "s1" [1, 2]
            (.cons "exif" (.pystr "x") (.cons "hash" (.pystr (sha256hex [1, 2])) .nil))
            ((create_session 100 1 "s1" ⟨[], [], []⟩).2)).2)).hgetall
            (metadataKey h)).lookup "hash" = some s →
        (PyDict.cons "hash" (.pystr (sha256hex [1, 2]))
          (.cons "exif" (.pystr "x") .nil)).find "hash" = some (deserializeValue s)) :=
  C10_hash_field_override id 9 "s1"
    ((store_image_metadata 100 2 "s1" [1, 2]
        (.cons "exif" (.pystr "x") (.cons "hash" (.pystr (sha256hex [1, 2])) .nil))
        ((create_session 100 1 "s1" ⟨[], [], []⟩).2)).2)
    [PyDict.cons "hash" (.pystr (sha256hex [1, 2])) (.cons "exif" (.pystr "x") .nil)]
    (PyDict.cons "hash" (.pystr (sha256hex [1, 2])) (.cons "exif" (.pystr "x") .nil))
    (by rfl) (by simp)

theorem SetEnumOk_reverse {l : List String} (h : l.Nodup) : SetEnumOk l l.reverse :=
  ⟨List.nodup_reverse.mpr h, fun _ => List.mem_reverse⟩

/-- A session holding two distinct images, stored at times 2 and 3. -/
def twoImageState : Redis :=
  (store_image_metadata 100 3 "s1" [3] (.cons "exif" (.pystr "e") .nil)
    ((store_image_metadata 100 2 "s1" [1, 2] (.cons "exif" (.pystr "e") .nil)
      ((create_session 100 1 "s1" ⟨[], [], []⟩).2)).2)).2

theorem twoImageState_zrange :
    twoImageState.zrange (uploadOrderKey "s1") = [sha256hex [1, 2], sha256hex [3]] := by rfl

theorem twoImageState_hashes_ne : sha256hex [1, 2] ≠ sha256hex [3] := by decide

/-- C1: the code funnels the zrange result through `list(set(hashes))`
    (`session_store.py:203`), whose iteration order is arbitrary (and
    hash-randomized across Python processes).  On a session holding two
    images stored at times 2 and 3, the sorted set itself is in upload
    order, reversal is a legal `set` enumeration, and under it
    `get_session_images` returns the records in reversed order — the
    upload-order guarantee is lost at the dedup step. -/
theorem C1_set_iteration_loses_upload_order :
    twoImageState.zrange (uploadOrderKey "s1") = [sha256hex [1, 2], sha256hex [3]] ∧
    sha256hex [1, 2] ≠ sha256hex [3] ∧
    SetEnumOk (twoImageState.zrange (uploadOrderKey "s1"))
      (List.reverse (twoImageState.zrange (uploadOrderKey "s1"))) ∧
    (get_session_images List.reverse 9 "s1" twoImageState).1
      = .ok [PyDict.cons "hash" (.pystr (sha256hex [3])) (.cons "exif" (.pystr "e") .nil),
             PyDict.cons "hash" (.pystr (sha256hex [1, 2])) (.cons "exif" (.pystr "e") .nil)] ∧
    [sha256hex [3], sha256hex [1, 2]] ≠ [sha256hex [1, 2], sha256hex [3]] := by
  refine ⟨twoImageState_zrange, twoImageState_hashes_ne, ?_, by rfl, ?_⟩
  · rw [twoImageState_zrange]
    refine SetEnumOk_reverse (List.nodup_cons.mpr ⟨?_, List.nodup_singleton _⟩)
    simp [twoImageState_hashes_ne]
  · intro h
    injection h with h1
    exact twoImageState_hashes_ne h1.symm

/-! ### Well-formed metadata facts for the round trip -/

theorem hasKey_iff_mem : ∀ (d : PyDict) (k : String),
    d.hasKey k = true ↔ k ∈ d.entries.map Prod.fst
  | .nil, k => by simp [PyDict.hasKey, PyDict.entries]
  | .cons k2 v tl, k => by
      simp only [PyDict.hasKey, PyDict.entries, Bool.or_eq_true, beq_iff_eq,
        hasKey_iff_mem tl k, List.map_cons, List.mem_cons]
      constructor
      · rintro (h | h)
        · exact Or.inl h.symm
        · exact Or.inr h
      · rintro (h | h)
        · exact Or.inl h.symm
        · exact Or.inr h

theorem wf_entries_nodup : ∀ (d : PyDict), d.wf = true → (d.entries.map Prod.fst).Nodup
  | .nil, _ => by simp [PyDict.entries]
  | .cons k v tl, h => by
      simp only [PyDict.wf, Bool.and_eq_true, Bool.not_eq_true'] at h
      obtain ⟨⟨⟨hstr, hkey⟩, hv⟩, htl⟩ := h
      simp only [PyDict.entries, List.map_cons, List.nodup_cons]
      refine ⟨fun hmem => ?_, wf_entries_nodup tl htl⟩
      rw [(hasKey_iff_mem tl k).mpr hmem] at hkey
      cases hkey

theorem wf_of_mem_entries : ∀ (d : PyDict) (k : String) (v : PyVal),
    d.wf = true → (k, v) ∈ d.entries → v.wf = true
  | .nil, _, _, _, hmem => by cases hmem
  | .cons k2 v2 tl, k, v, hwf, hmem => by
      simp only [PyDict.wf, Bool.and_eq_true] at hwf
      rcases List.mem_cons.mp hmem with he | hmem2
      · injection he with _ hv; subst hv; exact hwf.1.2
      · exact wf_of_mem_entries tl k v hwf.2 hmem2

theorem serializeMetadata_keys (md : PyDict) :
    (serializeMetadata md).map Prod.fst = md.entries.map Prod.fst := by
  simp [serializeMetadata, List.map_map, Function.comp]

theorem serializeMetadata_ne_nil {md : PyDict} (h : hasRequiredSection md = true) :
    serializeMetadata md ≠ [] := by
  cases md with
  | nil => cases h
  | cons k v tl =>
      show (k, serializeValue v) :: serializeMetadata tl ≠ []
      simp

/-- C6 counterexample: storing the string leaf `"1"` under `exif` and
    reading it back yields the integer `1` — a string-to-scalar
    conversion, not a scalar-to-string coercion, so the read-back map is
    not structurally equal to the stored map in the claim's sense. -/
theorem C6_counterexample :
    (get_image_metadata 9 "s1" (sha256hex [1, 2])
        ((store_image_metadata 100 2 "s1" [1, 2] (.cons "exif" (.pystr "1") .nil)
          ((create_session 100 1 "s1" ⟨[], [], []⟩).2)).2)).1
      = .ok (.cons "exif" (.pyint 1) .nil) ∧
    PyDict.cons "exif" (PyVal.pyint 1) .nil ≠ PyDict.cons "exif" (.pystr "1") .nil ∧
    (∀ s : String, PyVal.pyint 1 ≠ .pystr s) := by
  refine ⟨by rfl, by simp, fun s h => by cases h⟩

/-- C6 amended: storing a well-formed metadata map under a fresh hash and
    reading it back yields the map with every value sent through the
    store's serialize/deserialize composite (`roundTripValue`): nested
    dicts, nested lists and int leaves round-trip exactly; `None` comes
    back as `""`; booleans come back as the strings `"True"` / `"False"`;
    a string leaf comes back as its JSON parse when it parses and
    unchanged otherwise. -/
theorem C6_metadata_roundtrip (ttl now1 now2 : Nat) (sid : String) (data : List Nat)
    (md : PyDict) (st : Redis)
    (hs : st.existsKey (sessionKey sid) = true)
    (hsec : hasRequiredSection md = true)
    (hwf : md.wf = true)
    (hnz : now1 ≠ 0)
    (hfresh : st.hgetall (metadataKey (sha256hex data)) = []) :
    ∃ st2, store_image_metadata ttl now1 sid data md st = (.ok (sha256hex data), st2) ∧
      (get_image_metadata now2 sid (sha256hex data) st2).1 = .ok md.mapRT ∧
      (∀ k kvs, (k, PyVal.pydict kvs) ∈ md.entries →
        roundTripValue (.pydict kvs) = .pydict kvs) ∧
      (∀ k xs, (k, PyVal.pylist xs) ∈ md.entries →
        roundTripValue (.pylist xs) = .pylist xs) ∧
      (∀ n : Int, roundTripValue (.pyint n) = .pyint n) ∧
      roundTripValue .pynone = .pystr "" ∧
      (∀ b, roundTripValue (.pybool b) = .pystr (if b then "True" else "False")) ∧
      (∀ s, roundTripValue (.pystr s) = deserializeValue s) := by
  have hstore : store_image_metadata ttl now1 sid data md st
      = (.ok (sha256hex data),
          ((((st.hsetMapping (metadataKey (sha256hex data)) (serializeMetadata md)).expire
            (metadataKey (sha256hex data)) (ttl * 2) now1).zadd (uploadOrderKey sid)
            (sha256hex data) now1).expire (uploadOrderKey sid) ttl now1).expire (sessionKey sid)
            ttl now1) := by
    simp [store_image_metadata, hs, hsec]
  refine ⟨_, hstore, ?_, fun k kvs hm => roundTripValue_dict kvs (wf_of_mem_entries md k _ hwf hm),
    fun k xs hm => roundTripValue_list xs (wf_of_mem_entries md k _ hwf hm),
    roundTripValue_int, roundTripValue_none, roundTripValue_bool,
    roundTripValue_str⟩
  have hex2 : (((((st.hsetMapping (metadataKey (sha256hex data)) (serializeMetadata md)).expire
      (metadataKey (sha256hex data)) (ttl * 2) now1).zadd (uploadOrderKey sid)
      (sha256hex data) now1).expire (uploadOrderKey sid) ttl now1).expire (sessionKey sid)
      ttl now1).existsKey (sessionKey sid) = true := by
    rw [existsKey_expire, existsKey_expire]
    refine existsKey_zadd_of _ _ _ _ ?_
    rw [existsKey_expire]
    exact existsKey_hsetMapping_of st _ _ hs
  have hzs : (((((st.hsetMapping (metadataKey (sha256hex data)) (serializeMetadata md)).expire
      (metadataKey (sha256hex data)) (ttl * 2) now1).zadd (uploadOrderKey sid)
      (sha256hex data) now1).expire (uploadOrderKey sid) ttl now1).expire (sessionKey sid)
      ttl now1).zscore (uploadOrderKey sid) (sha256hex data) = some now1 := by
    rw [zscore_expire, zscore_expire]
    exact zscore_zadd_self _ _ _ _
  have hrec : (((((st.hsetMapping (metadataKey (sha256hex data)) (serializeMetadata md)).expire
      (metadataKey (sha256hex data)) (ttl * 2) now1).zadd (uploadOrderKey sid)
      (sha256hex data) now1).expire (uploadOrderKey sid) ttl now1).expire (sessionKey sid)
      ttl now1).hgetall (metadataKey (sha256hex data)) = serializeMetadata md := by
    rw [hgetall_expire, hgetall_expire, hgetall_zadd, hgetall_expire,
      hgetall_hsetMapping_self, hfresh]
    rw [foldlUpsert_of_disjoint (serializeMetadata md) [] (fun k _ => rfl)
      (by rw [serializeMetadata_keys]; exact wf_entries_nodup md hwf)]
    rfl
  rw [get_image_metadata, hzs]
  simp only [hex2, not_true, if_false, hnz, hrec,
    serializeMetadata_ne_nil hsec, if_neg (serializeMetadata_ne_nil hsec)]
  exact congrArg Except.ok (deserializeFields_serializeMetadata md)

/-- A metadata map exercising every value shape: a nested dict, a nested
    list with int/null/bool leaves, a plain string, a top-level bool and
    a top-level `None`. -/
def mdSample : PyDict :=
  .cons "exif" (.pydict (.cons "Make" (.pystr "Canon") (.cons "ISO" (.pyint 200) .nil)))
    (.cons "tags" (.pylist (.cons (.pyint 3) (.cons .pynone (.cons (.pybool true) .nil))))
      (.cons "note" (.pystr "hello")
        (.cons "flag" (.pybool false)
          (.cons "missing" .pynone .nil))))

/-- C6 amended witness: the sample map stores and reads back as its
    `mapRT` image — the nested dict and list and the string survive
    exactly, the top-level bool becomes `"False"` and `None` becomes
    `""`. -/
theorem C6_metadata_roundtrip_witness :
    (get_image_metadata 9 "s1" (sha256hex [1, 2])
        ((store_image_metadata 100 2 "s1" [1, 2] mdSample
          ((create_session 100 1 "s1" ⟨[], [], []⟩).2)).2)).1
      = .ok mdSample.mapRT ∧
    mdSample.mapRT
      = .cons "exif" (.pydict (.cons "Make" (.pystr "Canon") (.cons "ISO" (.pyint 200) .nil)))
          (.cons "tags" (.pylist (.cons (.pyint 3) (.cons .pynone (.cons (.pybool true) .nil))))
            (.cons "note" (.pystr "hello")
              (.cons "flag" (.pystr "False")
                (.cons "missing" (.pystr "") .nil)))) := by
  obtain ⟨st2, hstore, hget, _⟩ := C6_metadata_roundtrip 100 2 9 "s1" [1, 2] mdSample
    ((create_session 100 1 "s1" ⟨[], [], []⟩).2) (by rfl) (by rfl) (by rfl) (by decide) (by rfl)
  constructor
  · rw [hstore]
    exact hget
  · rfl
